import Mathlib

/-!
Verification of the contrast-repair and semantic-role-mapping engine of the
color-tool repository (src/ColorSim.py), as a shallow embedding.

Colors are integer triples; the HSL conversion layer (Python `colorsys`) is
pure rational arithmetic and is embedded over `ℚ` exactly.  The WCAG relative
luminance uses the sRGB transfer function with a real exponent 2.4, so
luminance and contrast values live in `ℝ` (the float arithmetic of the source
is idealized as exact real arithmetic).
-/

namespace ColorSim

open Classical

/-- A color as in the source: a triple of channel integers (valid ones lie in 0..255). -/
abbrev Color := ℤ × ℤ × ℤ

/-- Channel validity, 0..255 in every channel. -/
def Valid (c : Color) : Prop :=
  0 ≤ c.1 ∧ c.1 ≤ 255 ∧ 0 ≤ c.2.1 ∧ c.2.1 ≤ 255 ∧ 0 ≤ c.2.2 ∧ c.2.2 ≤ 255

instance (c : Color) : Decidable (Valid c) := by
  unfold Valid; infer_instance

/-- Python `int()` on a rational: truncation toward zero. -/
def pytrunc (q : ℚ) : ℤ := if q < 0 then -⌊-q⌋ else ⌊q⌋

/-- Python `x % 1.0` for a real-valued `x` embedded as a rational: the
fractional part `x - ⌊x⌋`. -/
def fract1 (q : ℚ) : ℚ := q - ⌊q⌋

/-- Python `x % 360.0`. -/
def pymod360 (q : ℚ) : ℚ := q - 360 * ⌊q / 360⌋

/-- `colorsys.rgb_to_hls` over exact rationals; returns `(h, l, s)`,
all in `[0, 1]` for in-range inputs. -/
def rgb_to_hls (r g b : ℚ) : ℚ × ℚ × ℚ :=
  let maxc := max r (max g b)
  let minc := min r (min g b)
  let l := (maxc + minc) / 2
  if minc = maxc then (0, l, 0)
  else
    let rangec := maxc - minc
    let s := if l ≤ 1/2 then rangec / (maxc + minc) else rangec / (2 - maxc - minc)
    let rc := (maxc - r) / rangec
    let gc := (maxc - g) / rangec
    let bc := (maxc - b) / rangec
    let h0 := if r = maxc then bc - gc else if g = maxc then 2 + rc - bc else 4 + gc - rc
    (fract1 (h0 / 6), l, s)

/-- `colorsys._v`: the piecewise-linear hue interpolation helper (the source
reduces `hue` modulo one first and then branches on it). -/
def vv (m1 m2 hue : ℚ) : ℚ :=
  if fract1 hue < 1/6 then m1 + (m2 - m1) * fract1 hue * 6
  else if fract1 hue < 1/2 then m2
  else if fract1 hue < 2/3 then m1 + (m2 - m1) * (2/3 - fract1 hue) * 6
  else m1

/-- `colorsys.hls_to_rgb` over exact rationals. -/
def hls_to_rgb (h l s : ℚ) : ℚ × ℚ × ℚ :=
  if s = 0 then (l, l, l)
  else
    let m2 := if l ≤ 1/2 then l * (1 + s) else l + s - l * s
    let m1 := 2 * l - m2
    (vv m1 m2 (h + 1/3), vv m1 m2 h, vv m1 m2 (h - 1/3))

/-- `rgb_to_hsl` of ColorSim: channels scaled from 0..255, result as
(hue in degrees, saturation %, lightness %). -/
def rgb_to_hsl (c : Color) : ℚ × ℚ × ℚ :=
  let hls := rgb_to_hls ((c.1 : ℚ) / 255) ((c.2.1 : ℚ) / 255) ((c.2.2 : ℚ) / 255)
  (hls.1 * 360, hls.2.2 * 100, hls.2.1 * 100)

/-- `hsl_to_rgb` of ColorSim: degrees/percentages in, channels out through
`int(x * 255)`. -/
def hsl_to_rgb (x : ℚ × ℚ × ℚ) : Color :=
  let rgb := hls_to_rgb (x.1 / 360) (x.2.2 / 100) (x.2.1 / 100)
  (pytrunc (rgb.1 * 255), pytrunc (rgb.2.1 * 255), pytrunc (rgb.2.2 * 255))

/-- `darken` of ColorSim. -/
def darken (c : Color) (amount : ℚ) : Color :=
  let hsl := rgb_to_hsl c
  hsl_to_rgb (hsl.1, hsl.2.1, max 0 (hsl.2.2 - amount))

/-- `lighten` of ColorSim. -/
def lighten (c : Color) (amount : ℚ) : Color :=
  let hsl := rgb_to_hsl c
  hsl_to_rgb (hsl.1, hsl.2.1, min 100 (hsl.2.2 + amount))

/-- `saturate` of ColorSim. -/
def saturate (c : Color) (amount : ℚ) : Color :=
  let hsl := rgb_to_hsl c
  hsl_to_rgb (hsl.1, max 0 (min 100 (hsl.2.1 + amount)), hsl.2.2)

/-- The hue categories returned by `categorize_by_hue` (strings in the source). -/
inductive Cat where
  | neutral | red | orange | yellow | green | cyan | blue | purple | pink
deriving DecidableEq, Repr

/-- `categorize_by_hue` of ColorSim. -/
def categorize_by_hue (c : Color) : Cat :=
  let hsl := rgb_to_hsl c
  let h := hsl.1
  let s := hsl.2.1
  if s < 15 then .neutral
  else if h < 15 ∨ 345 ≤ h then .red
  else if h < 45 then .orange
  else if h < 75 then .yellow
  else if h < 150 then .green
  else if h < 195 then .cyan
  else if h < 255 then .blue
  else if h < 285 then .purple
  else .pink

/-- The sRGB channel transfer function of `get_luminance`: linear below the
0.03928 knee, a 2.4 gamma power above it. -/
noncomputable def srgbLin (x : ℝ) : ℝ :=
  if x ≤ 0.03928 then x / 12.92 else ((x + 0.055) / 1.055) ^ (2.4 : ℝ)

/-- `get_luminance` of ColorSim: WCAG relative luminance. -/
noncomputable def get_luminance (c : Color) : ℝ :=
  0.2126 * srgbLin ((c.1 : ℝ) / 255) + 0.7152 * srgbLin ((c.2.1 : ℝ) / 255)
    + 0.0722 * srgbLin ((c.2.2 : ℝ) / 255)

/-- `contrast_ratio` of ColorSim. -/
noncomputable def contrast_ratio (c1 c2 : Color) : ℝ :=
  (max (get_luminance c1) (get_luminance c2) + 0.05)
    / (min (get_luminance c1) (get_luminance c2) + 0.05)

/- Basic bounds on the transfer function and luminance. -/

theorem srgbLin_nonneg {x : ℝ} (hx : 0 ≤ x) : 0 ≤ srgbLin x := by
  unfold srgbLin
  split
  · positivity
  · positivity

theorem srgbLin_le_one {x : ℝ} (hx0 : 0 ≤ x) (hx1 : x ≤ 1) : srgbLin x ≤ 1 := by
  unfold srgbLin
  split
  · rw [div_le_one (by norm_num)]
    linarith
  · have hb1 : (x + 0.055) / 1.055 ≤ 1 := by
      rw [div_le_one (by norm_num)]
      linarith
    have hb0 : 0 ≤ (x + 0.055) / 1.055 := by positivity
    calc ((x + 0.055) / 1.055) ^ (2.4 : ℝ) ≤ 1 ^ (2.4 : ℝ) := by
          exact Real.rpow_le_rpow hb0 hb1 (by norm_num)
      _ = 1 := Real.one_rpow _

theorem get_luminance_nonneg {c : Color} (hc : Valid c) : 0 ≤ get_luminance c := by
  obtain ⟨h1, h2, h3, h4, h5, h6⟩ := hc
  unfold get_luminance
  have l1 : 0 ≤ srgbLin ((c.1 : ℝ) / 255) := srgbLin_nonneg (by positivity)
  have l2 : 0 ≤ srgbLin ((c.2.1 : ℝ) / 255) := srgbLin_nonneg (by positivity)
  have l3 : 0 ≤ srgbLin ((c.2.2 : ℝ) / 255) := srgbLin_nonneg (by positivity)
  nlinarith

theorem get_luminance_le_one {c : Color} (hc : Valid c) : get_luminance c ≤ 1 := by
  obtain ⟨h1, h2, h3, h4, h5, h6⟩ := hc
  have b1 : ((c.1 : ℝ)) ≤ 255 := by exact_mod_cast h2
  have b2 : ((c.2.1 : ℝ)) ≤ 255 := by exact_mod_cast h4
  have b3 : ((c.2.2 : ℝ)) ≤ 255 := by exact_mod_cast h6
  have a1 : (0 : ℝ) ≤ (c.1 : ℝ) := by exact_mod_cast h1
  have a2 : (0 : ℝ) ≤ (c.2.1 : ℝ) := by exact_mod_cast h3
  have a3 : (0 : ℝ) ≤ (c.2.2 : ℝ) := by exact_mod_cast h5
  unfold get_luminance
  have l1 : srgbLin ((c.1 : ℝ) / 255) ≤ 1 := srgbLin_le_one (by positivity) (by nlinarith)
  have l2 : srgbLin ((c.2.1 : ℝ) / 255) ≤ 1 := srgbLin_le_one (by positivity) (by nlinarith)
  have l3 : srgbLin ((c.2.2 : ℝ) / 255) ≤ 1 := srgbLin_le_one (by positivity) (by nlinarith)
  nlinarith

theorem get_luminance_black : get_luminance (0, 0, 0) = 0 := by
  unfold get_luminance srgbLin
  norm_num

theorem get_luminance_white : get_luminance (255, 255, 255) = 1 := by
  unfold get_luminance srgbLin
  norm_num [Real.one_rpow]

/-- Upper estimate through the square: for a base in `[0,1]` the 2.4 power is
at most the square. -/
theorem rpow24_le_sq {b : ℝ} (h0 : 0 ≤ b) (h1 : b ≤ 1) : b ^ (2.4 : ℝ) ≤ b ^ 2 := by
  rcases eq_or_lt_of_le h0 with h | h
  · rw [← h]
    rw [Real.zero_rpow (by norm_num)]
    norm_num
  · have : b ^ (2.4 : ℝ) ≤ b ^ (2 : ℝ) :=
      Real.rpow_le_rpow_of_exponent_ge h h1 (by norm_num)
    calc b ^ (2.4 : ℝ) ≤ b ^ (2 : ℝ) := this
      _ = b ^ (2 : ℕ) := by
          rw [← Real.rpow_natCast b 2]
          norm_num
      _ = b ^ 2 := by norm_num

/-- Lower estimate through the cube: for a base in `[0,1]` the 2.4 power is
at least the cube. -/
theorem cube_le_rpow24 {b : ℝ} (h0 : 0 ≤ b) (h1 : b ≤ 1) : b ^ 3 ≤ b ^ (2.4 : ℝ) := by
  rcases eq_or_lt_of_le h0 with h | h
  · rw [← h]
    rw [Real.zero_rpow (by norm_num)]
    norm_num
  · have : b ^ (3 : ℝ) ≤ b ^ (2.4 : ℝ) :=
      Real.rpow_le_rpow_of_exponent_ge h h1 (by norm_num)
    calc b ^ 3 = b ^ (3 : ℕ) := by norm_num
      _ = b ^ (3 : ℝ) := by
          rw [← Real.rpow_natCast b 3]
          norm_num
      _ ≤ b ^ (2.4 : ℝ) := this

/-- Evaluation of the transfer function below the knee. -/
theorem srgbLin_low {x : ℝ} (hx : x ≤ 0.03928) : srgbLin x = x / 12.92 := by
  unfold srgbLin
  rw [if_pos hx]

/-- Evaluation of the transfer function above the knee. -/
theorem srgbLin_high {x : ℝ} (hx : ¬x ≤ 0.03928) :
    srgbLin x = ((x + 0.055) / 1.055) ^ (2.4 : ℝ) := by
  unfold srgbLin
  rw [if_neg hx]

/-- `ensure_contrast` of ColorSim: black or white, whichever gives better
contrast (the default target in the source is 7.0). -/
noncomputable def ensure_contrast (bg : Color) (target : ℝ) : Color :=
  let wc := contrast_ratio bg (255, 255, 255)
  let bc := contrast_ratio bg (0, 0, 0)
  if target ≤ wc ∧ bc ≤ wc then (255, 255, 255)
  else if target ≤ bc then (0, 0, 0)
  else if 1/2 < get_luminance bg then (0, 0, 0) else (255, 255, 255)

/-- Modelled from the spec: the §4.3 contract for `ensureContrast` — return
whichever of pure black or pure white has higher contrast against `bg`,
preferring one that already clears `target`; if neither clears it, return the
one with higher luminance distance (darker background → white, lighter →
black). Used to compare the code's `ensure_contrast` against the spec. -/
noncomputable def ensure_contrast_described (bg : Color) (target : ℝ) : Color :=
  let wc := contrast_ratio bg (255, 255, 255)
  let bc := contrast_ratio bg (0, 0, 0)
  if target ≤ wc ∧ target ≤ bc then (if wc < bc then (0, 0, 0) else (255, 255, 255))
  else if target ≤ wc then (255, 255, 255)
  else if target ≤ bc then (0, 0, 0)
  else if get_luminance bg ≤ 1/2 then (255, 255, 255) else (0, 0, 0)

theorem contrast_ratio_self {x : Color} (hx : Valid x) : contrast_ratio x x = 1 := by
  unfold contrast_ratio
  rw [max_self, min_self, div_self]
  have := get_luminance_nonneg hx
  positivity

theorem one_le_contrast_ratio {a b : Color} (ha : Valid a) (hb : Valid b) :
    1 ≤ contrast_ratio a b := by
  unfold contrast_ratio
  have hmin : 0 ≤ min (get_luminance a) (get_luminance b) :=
    le_min (get_luminance_nonneg ha) (get_luminance_nonneg hb)
  rw [le_div_iff (by positivity)]
  have : min (get_luminance a) (get_luminance b) ≤ max (get_luminance a) (get_luminance b) :=
    min_le_max
  linarith

theorem contrast_ratio_le_21 {a b : Color} (ha : Valid a) (hb : Valid b) :
    contrast_ratio a b ≤ 21 := by
  unfold contrast_ratio
  have hmin : 0 ≤ min (get_luminance a) (get_luminance b) :=
    le_min (get_luminance_nonneg ha) (get_luminance_nonneg hb)
  have hmax : max (get_luminance a) (get_luminance b) ≤ 1 :=
    max_le (get_luminance_le_one ha) (get_luminance_le_one hb)
  rw [div_le_iff (by positivity)]
  linarith

theorem contrast_ratio_black {bg : Color} (hbg : Valid bg) :
    contrast_ratio (0, 0, 0) bg = (get_luminance bg + 0.05) / 0.05 := by
  unfold contrast_ratio
  rw [get_luminance_black]
  rw [max_eq_right (get_luminance_nonneg hbg), min_eq_left (get_luminance_nonneg hbg)]
  norm_num

theorem contrast_ratio_white {bg : Color} (hbg : Valid bg) :
    contrast_ratio (255, 255, 255) bg = 1.05 / (get_luminance bg + 0.05) := by
  unfold contrast_ratio
  rw [get_luminance_white]
  rw [max_eq_left (get_luminance_le_one hbg), min_eq_right (get_luminance_le_one hbg)]
  norm_num

/-- No color beats both pure black and pure white in contrast against a fixed
background. -/
theorem contrast_ratio_le_bw {c bg : Color} (hc : Valid c) (hbg : Valid bg) :
    contrast_ratio c bg
      ≤ max (contrast_ratio (0, 0, 0) bg) (contrast_ratio (255, 255, 255) bg) := by
  have hc0 := get_luminance_nonneg hc
  have hc1 := get_luminance_le_one hc
  have hb0 := get_luminance_nonneg hbg
  rw [contrast_ratio_black hbg, contrast_ratio_white hbg]
  unfold contrast_ratio
  rcases le_total (get_luminance c) (get_luminance bg) with h | h
  · refine le_max_of_le_left ?_
    rw [max_eq_right h, min_eq_left h]
    rw [div_le_div_iff (by linarith) (by norm_num)]
    nlinarith
  · refine le_max_of_le_right ?_
    rw [max_eq_left h, min_eq_right h]
    rw [div_le_div_iff (by linarith) (by linarith)]
    nlinarith

theorem srgbLin_eq_zero {x : ℝ} (hx : 0 ≤ x) (h : srgbLin x = 0) : x = 0 := by
  unfold srgbLin at h
  split at h
  · field_simp at h
    exact h
  · exfalso
    have hx2 : (0 : ℝ) < (x + 0.055) / 1.055 := by positivity
    have := Real.rpow_pos_of_pos hx2 (2.4 : ℝ)
    linarith [h ▸ this]

theorem srgbLin_eq_one {x : ℝ} (hx0 : 0 ≤ x) (hx1 : x ≤ 1) (h : srgbLin x = 1) : x = 1 := by
  unfold srgbLin at h
  split at h
  · exfalso
    have : x = 12.92 := by field_simp at h; linarith
    linarith
  · set b := (x + 0.055) / 1.055 with hbdef
    have hb0 : 0 ≤ b := by positivity
    have hb1 : b ≤ 1 := by
      rw [hbdef, div_le_one (by norm_num)]
      linarith
    have hbone : b = 1 := by
      by_contra hne
      have hblt : b < 1 := lt_of_le_of_ne hb1 hne
      have h1 : b ^ (2.4 : ℝ) ≤ b ^ 2 := rpow24_le_sq hb0 hb1
      have h2 : b ^ 2 < 1 := by nlinarith
      linarith [h ▸ h1]
    rw [hbdef] at hbone
    field_simp at hbone
    linarith

theorem lum_eq_zero_imp {c : Color} (hc : Valid c) (h : get_luminance c = 0) :
    c = (0, 0, 0) := by
  obtain ⟨h1, h2, h3, h4, h5, h6⟩ := hc
  unfold get_luminance at h
  have l1 : 0 ≤ srgbLin ((c.1 : ℝ) / 255) := srgbLin_nonneg (by positivity)
  have l2 : 0 ≤ srgbLin ((c.2.1 : ℝ) / 255) := srgbLin_nonneg (by positivity)
  have l3 : 0 ≤ srgbLin ((c.2.2 : ℝ) / 255) := srgbLin_nonneg (by positivity)
  have e1 : srgbLin ((c.1 : ℝ) / 255) = 0 := by linarith
  have e2 : srgbLin ((c.2.1 : ℝ) / 255) = 0 := by linarith
  have e3 : srgbLin ((c.2.2 : ℝ) / 255) = 0 := by linarith
  have z1 : ((c.1 : ℝ) / 255) = 0 := srgbLin_eq_zero (by positivity) e1
  have z2 : ((c.2.1 : ℝ) / 255) = 0 := srgbLin_eq_zero (by positivity) e2
  have z3 : ((c.2.2 : ℝ) / 255) = 0 := srgbLin_eq_zero (by positivity) e3
  have i1 : c.1 = 0 := by
    have : (c.1 : ℝ) = 0 := by field_simp at z1; exact_mod_cast z1
    exact_mod_cast this
  have i2 : c.2.1 = 0 := by
    have : (c.2.1 : ℝ) = 0 := by field_simp at z2; exact_mod_cast z2
    exact_mod_cast this
  have i3 : c.2.2 = 0 := by
    have : (c.2.2 : ℝ) = 0 := by field_simp at z3; exact_mod_cast z3
    exact_mod_cast this
  exact Prod.ext i1 (Prod.ext i2 i3)

theorem lum_eq_one_imp {c : Color} (hc : Valid c) (h : get_luminance c = 1) :
    c = (255, 255, 255) := by
  obtain ⟨h1, h2, h3, h4, h5, h6⟩ := hc
  have b1 : ((c.1 : ℝ)) ≤ 255 := by exact_mod_cast h2
  have b2 : ((c.2.1 : ℝ)) ≤ 255 := by exact_mod_cast h4
  have b3 : ((c.2.2 : ℝ)) ≤ 255 := by exact_mod_cast h6
  have a1 : (0 : ℝ) ≤ (c.1 : ℝ) := by exact_mod_cast h1
  have a2 : (0 : ℝ) ≤ (c.2.1 : ℝ) := by exact_mod_cast h3
  have a3 : (0 : ℝ) ≤ (c.2.2 : ℝ) := by exact_mod_cast h5
  unfold get_luminance at h
  have u1 : srgbLin ((c.1 : ℝ) / 255) ≤ 1 := srgbLin_le_one (by positivity) (by nlinarith)
  have u2 : srgbLin ((c.2.1 : ℝ) / 255) ≤ 1 := srgbLin_le_one (by positivity) (by nlinarith)
  have u3 : srgbLin ((c.2.2 : ℝ) / 255) ≤ 1 := srgbLin_le_one (by positivity) (by nlinarith)
  have e1 : srgbLin ((c.1 : ℝ) / 255) = 1 := by linarith
  have e2 : srgbLin ((c.2.1 : ℝ) / 255) = 1 := by linarith
  have e3 : srgbLin ((c.2.2 : ℝ) / 255) = 1 := by linarith
  have z1 : ((c.1 : ℝ) / 255) = 1 := srgbLin_eq_one (by positivity) (by nlinarith) e1
  have z2 : ((c.2.1 : ℝ) / 255) = 1 := srgbLin_eq_one (by positivity) (by nlinarith) e2
  have z3 : ((c.2.2 : ℝ) / 255) = 1 := srgbLin_eq_one (by positivity) (by nlinarith) e3
  have i1 : c.1 = 255 := by
    have : (c.1 : ℝ) = 255 := by field_simp at z1; linarith
    exact_mod_cast this
  have i2 : c.2.1 = 255 := by
    have : (c.2.1 : ℝ) = 255 := by field_simp at z2; linarith
    exact_mod_cast this
  have i3 : c.2.2 = 255 := by
    have : (c.2.2 : ℝ) = 255 := by field_simp at z3; linarith
    exact_mod_cast this
  exact Prod.ext i1 (Prod.ext i2 i3)

/-- A color whose contrast against `bg` matches the better of black and white
must itself be pure black or pure white. -/
theorem eq_bw_of_contrast_ge {c bg : Color} (hc : Valid c) (hbg : Valid bg)
    (h : max (contrast_ratio (0, 0, 0) bg) (contrast_ratio (255, 255, 255) bg)
      ≤ contrast_ratio c bg) :
    c = (0, 0, 0) ∨ c = (255, 255, 255) := by
  have hc0 := get_luminance_nonneg hc
  have hc1 := get_luminance_le_one hc
  have hb0 := get_luminance_nonneg hbg
  have hb1 := get_luminance_le_one hbg
  rw [contrast_ratio_black hbg, contrast_ratio_white hbg] at h
  rcases le_total (get_luminance c) (get_luminance bg) with hcb | hcb
  · left
    apply lum_eq_zero_imp hc
    have hb := le_trans (le_max_left _ _) h
    unfold contrast_ratio at hb
    rw [max_eq_right hcb, min_eq_left hcb] at hb
    rw [div_le_div_iff (by norm_num) (by linarith)] at hb
    nlinarith
  · right
    apply lum_eq_one_imp hc
    have hw := le_trans (le_max_right _ _) h
    unfold contrast_ratio at hw
    rw [max_eq_left hcb, min_eq_right hcb] at hw
    rw [div_le_div_iff (by linarith) (by linarith)] at hw
    nlinarith

theorem contrast_ratio_comm (a b : Color) : contrast_ratio a b = contrast_ratio b a := by
  unfold contrast_ratio
  rw [max_comm, min_comm]

theorem lum_gray10 : get_luminance (10, 10, 10) = 50 / 16473 := by
  have h : srgbLin ((2 : ℝ) / 51) = ((2 : ℝ) / 51) / 12.92 := srgbLin_low (by norm_num)
  unfold get_luminance
  norm_num [h]

theorem lum_245_lo : (0.3 : ℝ) ≤ get_luminance (245, 245, 245) := by
  have h : srgbLin ((49 : ℝ) / 51) = (((49 : ℝ) / 51 + 0.055) / 1.055) ^ (2.4 : ℝ) :=
    srgbLin_high (by norm_num)
  have hb0 : (0 : ℝ) ≤ ((49 : ℝ) / 51 + 0.055) / 1.055 := by norm_num
  have hb1 : ((49 : ℝ) / 51 + 0.055) / 1.055 ≤ 1 := by norm_num
  have hcube := cube_le_rpow24 hb0 hb1
  have h3 : (0.3 : ℝ) ≤ (((49 : ℝ) / 51 + 0.055) / 1.055) ^ 3 := by norm_num
  have hlin : (0.3 : ℝ) ≤ srgbLin ((49 : ℝ) / 51) := by
    rw [h]
    linarith
  unfold get_luminance
  norm_num
  nlinarith [hlin]

/-- The code of `ensure_contrast` agrees pointwise with the spec's description
(higher-contrast extreme, preferring one clearing the target, else by
background polarity). -/
theorem ensure_contrast_eq_described (bg : Color) (target : ℝ) :
    ensure_contrast bg target = ensure_contrast_described bg target := by
  unfold ensure_contrast ensure_contrast_described
  set wc := contrast_ratio bg (255, 255, 255) with hwc
  set bc := contrast_ratio bg (0, 0, 0) with hbc
  by_cases hw : target ≤ wc
  · by_cases hb : target ≤ bc
    · rw [if_pos (⟨hw, hb⟩ : target ≤ wc ∧ target ≤ bc)]
      by_cases hcmp : wc < bc
      · rw [if_pos hcmp, if_neg (fun hh => absurd hh.2 (not_le.mpr hcmp)), if_pos hb]
      · rw [if_neg hcmp, if_pos (⟨hw, le_of_not_lt hcmp⟩ : target ≤ wc ∧ bc ≤ wc)]
    · have hblt : bc < target := lt_of_not_le hb
      rw [if_pos (⟨hw, le_of_lt (lt_of_lt_of_le hblt hw)⟩ : target ≤ wc ∧ bc ≤ wc),
        if_neg (fun hh => hb hh.2), if_pos hw]
  · rw [if_neg (fun hh => hw hh.1), if_neg (fun (hh : target ≤ wc ∧ target ≤ bc) => hw hh.1)]
    by_cases hb : target ≤ bc
    · rw [if_pos hb, if_neg hw, if_pos hb]
    · rw [if_neg hb, if_neg hw, if_neg hb]
      by_cases hl : get_luminance bg ≤ 1/2
      · rw [if_neg (not_lt.mpr hl), if_pos hl]
      · rw [if_pos (lt_of_not_le hl), if_neg hl]

theorem ensure_contrast_near_black : ensure_contrast (10, 10, 10) 7 = (255, 255, 255) := by
  unfold ensure_contrast
  have hv : Valid (10, 10, 10) := by decide
  have hw : contrast_ratio (10, 10, 10) (255, 255, 255)
      = 1.05 / (get_luminance (10, 10, 10) + 0.05) := by
    rw [contrast_ratio_comm]
    exact contrast_ratio_white hv
  have hb : contrast_ratio (10, 10, 10) (0, 0, 0)
      = (get_luminance (10, 10, 10) + 0.05) / 0.05 := by
    rw [contrast_ratio_comm]
    exact contrast_ratio_black hv
  rw [if_pos]
  constructor
  · rw [hw, lum_gray10]
    norm_num
  · rw [hw, hb, lum_gray10]
    rw [div_le_div_iff (by norm_num) (by norm_num)]
    norm_num

theorem ensure_contrast_near_white : ensure_contrast (245, 245, 245) 7 = (0, 0, 0) := by
  unfold ensure_contrast
  have hv : Valid (245, 245, 245) := by decide
  have hlo := lum_245_lo
  have hhi := get_luminance_le_one hv
  have hw : contrast_ratio (245, 245, 245) (255, 255, 255)
      = 1.05 / (get_luminance (245, 245, 245) + 0.05) := by
    rw [contrast_ratio_comm]
    exact contrast_ratio_white hv
  have hb : contrast_ratio (245, 245, 245) (0, 0, 0)
      = (get_luminance (245, 245, 245) + 0.05) / 0.05 := by
    rw [contrast_ratio_comm]
    exact contrast_ratio_black hv
  have hwlt : contrast_ratio (245, 245, 245) (255, 255, 255) < 7 := by
    rw [hw]
    rw [div_lt_iff (by linarith)]
    nlinarith
  have hbge : (7 : ℝ) ≤ contrast_ratio (245, 245, 245) (0, 0, 0) := by
    rw [hb]
    rw [le_div_iff (by norm_num)]
    nlinarith
  rw [if_neg (fun hh => absurd hh.1 (not_le.mpr hwlt)), if_pos hbge]

/-- C4: `ensure_contrast(bg, target)` returns pure black or pure white,
whichever has higher contrast against `bg`, preferring one that already
clears the target; when neither clears it, the one whose luminance is farther
from the background's (white for luminance ≤ 0.5, black above); in particular
it maps the near-black background (10,10,10) to white and the near-white
background (245,245,245) to black at the default target 7.0. -/
theorem claim_C4_ensure_contrast (bg : Color) (target : ℝ) :
    ensure_contrast bg target = ensure_contrast_described bg target ∧
    ensure_contrast (10, 10, 10) 7 = (255, 255, 255) ∧
    ensure_contrast (245, 245, 245) 7 = (0, 0, 0) :=
  ⟨ensure_contrast_eq_described bg target, ensure_contrast_near_black,
    ensure_contrast_near_white⟩

/-- C9: the contrast ratio always lies in [1, 21], equals 1 on identical
colors, and is the ratio of shifted maximal and minimal sRGB relative
luminances. -/
theorem claim_C9_contrast_range (a b : Color) (ha : Valid a) (hb : Valid b) :
    1 ≤ contrast_ratio a b ∧ contrast_ratio a b ≤ 21 ∧ contrast_ratio a a = 1 ∧
    contrast_ratio a b = (max (get_luminance a) (get_luminance b) + 0.05)
      / (min (get_luminance a) (get_luminance b) + 0.05) :=
  ⟨one_le_contrast_ratio ha hb, contrast_ratio_le_21 ha hb, contrast_ratio_self ha, rfl⟩

/-- Witness for C9 at the concrete pair black/white. -/
theorem claim_C9_contrast_range_witness :
    Valid ((0, 0, 0) : Color) ∧ Valid ((255, 255, 255) : Color) ∧
    (1 ≤ contrast_ratio (0, 0, 0) (255, 255, 255) ∧
      contrast_ratio (0, 0, 0) (255, 255, 255) ≤ 21 ∧
      contrast_ratio (0, 0, 0) (0, 0, 0) = 1 ∧
      contrast_ratio (0, 0, 0) (255, 255, 255)
        = (max (get_luminance (0, 0, 0)) (get_luminance (255, 255, 255)) + 0.05)
          / (min (get_luminance (0, 0, 0)) (get_luminance (255, 255, 255)) + 0.05)) :=
  ⟨by decide, by decide, claim_C9_contrast_range (0, 0, 0) (255, 255, 255) (by decide) (by decide)⟩

/- Auxiliary facts about the rational helpers. -/

theorem fract1_nonneg (q : ℚ) : 0 ≤ fract1 q := by
  unfold fract1
  have := Int.floor_le q
  linarith

theorem fract1_lt_one (q : ℚ) : fract1 q < 1 := by
  unfold fract1
  have := Int.lt_floor_add_one q
  linarith

theorem fract1_eq_self {q : ℚ} (h0 : 0 ≤ q) (h1 : q < 1) : fract1 q = q := by
  unfold fract1
  rw [Int.floor_eq_zero_iff.mpr]
  · simp
  · constructor <;> simpa

theorem fract1_eq_add_one {q : ℚ} (h0 : -1 ≤ q) (h1 : q < 0) : fract1 q = q + 1 := by
  unfold fract1
  have : ⌊q⌋ = -1 := by
    apply Int.floor_eq_iff.mpr
    constructor <;> push_cast <;> linarith
  rw [this]
  push_cast
  ring

theorem pytrunc_of_nonneg {q : ℚ} (h : 0 ≤ q) : pytrunc q = ⌊q⌋ := by
  unfold pytrunc
  rw [if_neg (not_lt.mpr h)]

theorem pytrunc_nonneg {q : ℚ} (h : 0 ≤ q) : 0 ≤ pytrunc q := by
  rw [pytrunc_of_nonneg h]
  exact Int.floor_nonneg.mpr h

theorem pytrunc_le {q : ℚ} (h : 0 ≤ q) : (pytrunc q : ℚ) ≤ q := by
  rw [pytrunc_of_nonneg h]
  exact Int.floor_le q

theorem pytrunc_le_of_le {q : ℚ} {n : ℤ} (h : 0 ≤ q) (hq : q ≤ (n : ℚ)) : pytrunc q ≤ n := by
  rw [pytrunc_of_nonneg h]
  calc ⌊q⌋ ≤ ⌊(n : ℚ)⌋ := Int.floor_mono hq
    _ = n := Int.floor_intCast n

/-- The interpolation helper is a weighted mean: it stays within `[m1, m2]`. -/
theorem vv_mem {m1 m2 : ℚ} (hue : ℚ) (h12 : m1 ≤ m2) :
    m1 ≤ vv m1 m2 hue ∧ vv m1 m2 hue ≤ m2 := by
  unfold vv
  have hf0 := fract1_nonneg hue
  have hf1 := fract1_lt_one hue
  split
  · constructor <;> nlinarith
  split
  · constructor <;> nlinarith
  split
  · constructor <;> nlinarith
  · constructor <;> nlinarith

theorem vv_const (m : ℚ) (hue : ℚ) : vv m m hue = m := by
  unfold vv
  split
  · ring
  split
  · rfl
  split
  · ring
  · rfl

/-- Lightness 0 always produces pure black (the scan's darkest candidate). -/
theorem hsl_to_rgb_black (h s : ℚ) : hsl_to_rgb (h, s, 0) = (0, 0, 0) := by
  unfold hsl_to_rgb hls_to_rgb
  by_cases hs : s / 100 = 0
  · simp only [hs]
    norm_num [pytrunc]
  · simp only [if_neg hs]
    norm_num [vv_const, pytrunc, show ((0:ℚ)/100) * (1 + s/100) = 0 from by ring]

/-- Lightness 100 always produces pure white (the scan's lightest candidate). -/
theorem hsl_to_rgb_white (h s : ℚ) : hsl_to_rgb (h, s, 100) = (255, 255, 255) := by
  unfold hsl_to_rgb hls_to_rgb
  by_cases hs : s / 100 = 0
  · simp only [hs]
    norm_num [pytrunc]
  · simp only [if_neg hs]
    have hl : ¬(((h, s, (100:ℚ)).2.2) / 100 ≤ 1 / 2) := by norm_num
    rw [if_neg hl]
    have hm2 : ((h, s, (100:ℚ)).2.2) / 100 + s / 100 - ((h, s, (100:ℚ)).2.2) / 100 * (s / 100)
        = 1 := by norm_num
    rw [hm2]
    have hm1 : 2 * (((h, s, (100:ℚ)).2.2) / 100) - 1 = 1 := by norm_num
    rw [hm1]
    norm_num [vv_const, pytrunc]

/-- The `(h, l, s)` of `colorsys.rgb_to_hls` has `l` and `s` in `[0, 1]` for
channel fractions in `[0, 1]`. -/
theorem rgb_to_hls_bounds {r g b : ℚ} (a1 : 0 ≤ r) (a2 : 0 ≤ g) (a3 : 0 ≤ b)
    (b1 : r ≤ 1) (b2 : g ≤ 1) (b3 : b ≤ 1) :
    0 ≤ (rgb_to_hls r g b).2.1 ∧ (rgb_to_hls r g b).2.1 ≤ 1 ∧
    0 ≤ (rgb_to_hls r g b).2.2 ∧ (rgb_to_hls r g b).2.2 ≤ 1 := by
  unfold rgb_to_hls
  have hmax1 : max r (max g b) ≤ 1 := max_le b1 (max_le b2 b3)
  have hmin0 : 0 ≤ min r (min g b) := le_min a1 (le_min a2 a3)
  have hminmax : min r (min g b) ≤ max r (max g b) :=
    le_trans (min_le_left _ _) (le_max_left _ _)
  by_cases heq : min r (min g b) = max r (max g b)
  · rw [if_pos heq]
    refine ⟨by linarith, by linarith, by norm_num, by norm_num⟩
  · rw [if_neg heq]
    simp only
    have hlt : min r (min g b) < max r (max g b) := lt_of_le_of_ne hminmax heq
    have hmaxpos : 0 < max r (max g b) := lt_of_le_of_lt hmin0 hlt
    refine ⟨by linarith, by linarith, ?_, ?_⟩
    · by_cases hl : (max r (max g b) + min r (min g b)) / 2 ≤ 1 / 2
      · rw [if_pos hl]
        apply div_nonneg (by linarith) (by linarith)
      · rw [if_neg hl]
        push_neg at hl
        apply div_nonneg (by linarith) (by linarith)
    · by_cases hl : (max r (max g b) + min r (min g b)) / 2 ≤ 1 / 2
      · rw [if_pos hl]
        rw [div_le_one (by linarith)]
        linarith
      · rw [if_neg hl]
        push_neg at hl
        have hmin1 : min r (min g b) < 1 := lt_of_lt_of_le hlt hmax1
        rw [div_le_one (by linarith)]
        linarith

/-- The saturation and lightness reported by `rgb_to_hsl` lie in `[0, 100]`. -/
theorem rgb_to_hsl_bounds {c : Color} (hc : Valid c) :
    0 ≤ (rgb_to_hsl c).2.1 ∧ (rgb_to_hsl c).2.1 ≤ 100 ∧
    0 ≤ (rgb_to_hsl c).2.2 ∧ (rgb_to_hsl c).2.2 ≤ 100 := by
  obtain ⟨h1, h2, h3, h4, h5, h6⟩ := hc
  have key := rgb_to_hls_bounds (r := (c.1 : ℚ) / 255) (g := (c.2.1 : ℚ) / 255)
    (b := (c.2.2 : ℚ) / 255) (by positivity) (by positivity) (by positivity)
    (by rw [div_le_one (by norm_num)]; exact_mod_cast h2)
    (by rw [div_le_one (by norm_num)]; exact_mod_cast h4)
    (by rw [div_le_one (by norm_num)]; exact_mod_cast h6)
  obtain ⟨k1, k2, k3, k4⟩ := key
  unfold rgb_to_hsl
  refine ⟨by nlinarith, by nlinarith, by nlinarith, by nlinarith⟩

/-- Any in-range HSL triple converts to a valid color. -/
theorem hsl_to_rgb_valid {h s l : ℚ} (hs0 : 0 ≤ s) (hs1 : s ≤ 100) (hl0 : 0 ≤ l)
    (hl1 : l ≤ 100) : Valid (hsl_to_rgb (h, s, l)) := by
  have key : ∀ v : ℚ, 0 ≤ v → v ≤ 1 → 0 ≤ pytrunc (v * 255) ∧ pytrunc (v * 255) ≤ 255 := by
    intro v hv0 hv1
    constructor
    · exact pytrunc_nonneg (by nlinarith)
    · exact pytrunc_le_of_le (by nlinarith) (by push_cast; nlinarith)
  unfold hsl_to_rgb hls_to_rgb
  simp only
  have hl0' : (0 : ℚ) ≤ l / 100 := by positivity
  have hl1' : l / 100 ≤ 1 := by
    rw [div_le_one (by norm_num)]
    exact hl1
  have hs0' : (0 : ℚ) ≤ s / 100 := by positivity
  have hs1' : s / 100 ≤ 1 := by
    rw [div_le_one (by norm_num)]
    exact hs1
  by_cases hz : s / 100 = 0
  · rw [if_pos hz]
    obtain ⟨k1, k2⟩ := key (l / 100) hl0' hl1'
    exact ⟨k1, k2, k1, k2, k1, k2⟩
  · rw [if_neg hz]
    set s' := s / 100 with hsdef
    set l' := l / 100 with hldef
    have hm : 0 ≤ 2 * l' - (if l' ≤ 1/2 then l' * (1 + s') else l' + s' - l' * s') ∧
        2 * l' - (if l' ≤ 1/2 then l' * (1 + s') else l' + s' - l' * s')
          ≤ (if l' ≤ 1/2 then l' * (1 + s') else l' + s' - l' * s') ∧
        (if l' ≤ 1/2 then l' * (1 + s') else l' + s' - l' * s') ≤ 1 := by
      by_cases hl2 : l' ≤ 1/2
      · rw [if_pos hl2]
        refine ⟨by nlinarith, by nlinarith, by nlinarith⟩
      · rw [if_neg hl2]
        push_neg at hl2
        refine ⟨by nlinarith, by nlinarith, by nlinarith⟩
    obtain ⟨q1, q2, q3⟩ := hm
    set m2 := if l' ≤ 1/2 then l' * (1 + s') else l' + s' - l' * s'
    set m1 := 2 * l' - m2
    have hv1 := @vv_mem m1 m2 (h / 360 + 1/3) q2
    have hv2 := @vv_mem m1 m2 (h / 360) q2
    have hv3 := @vv_mem m1 m2 (h / 360 - 1/3) q2
    obtain ⟨c1a, c1b⟩ := key _ (le_trans q1 hv1.1) (le_trans hv1.2 q3)
    obtain ⟨c2a, c2b⟩ := key _ (le_trans q1 hv2.1) (le_trans hv2.2 q3)
    obtain ⟨c3a, c3b⟩ := key _ (le_trans q1 hv3.1) (le_trans hv3.2 q3)
    exact ⟨c1a, c1b, c2a, c2b, c3a, c3b⟩

/- The lightness scan of `ensure_contrast_ratio`. -/

/-- Python's `list(range(start, -1, -1))`: `start, start-1, ..., 0`. -/
def pyRangeDown (start : ℤ) : List ℤ :=
  ((List.range (start + 1).toNat).reverse).map (fun i : ℕ => (i : ℤ))

/-- Python's `list(range(start, 101))`: `start, start+1, ..., 100`. -/
def pyRangeUp (start : ℤ) : List ℤ :=
  (List.range (101 - start).toNat).map (fun i : ℕ => start + (i : ℤ))

theorem mem_pyRangeDown {start x : ℤ} : x ∈ pyRangeDown start ↔ 0 ≤ x ∧ x ≤ start := by
  unfold pyRangeDown
  rw [List.mem_map]
  constructor
  · rintro ⟨i, hi, rfl⟩
    rw [List.mem_reverse, List.mem_range] at hi
    omega
  · rintro ⟨hx0, hxs⟩
    refine ⟨x.toNat, ?_, by omega⟩
    rw [List.mem_reverse, List.mem_range]
    omega

theorem mem_pyRangeUp {start x : ℤ} : x ∈ pyRangeUp start ↔ start ≤ x ∧ x ≤ 100 := by
  unfold pyRangeUp
  rw [List.mem_map]
  constructor
  · rintro ⟨i, hi, rfl⟩
    rw [List.mem_range] at hi
    omega
  · rintro ⟨hx0, hxs⟩
    refine ⟨(x - start).toNat, ?_, by omega⟩
    rw [List.mem_range]
    omega

/-- Outcome of the lightness loop: an early return on meeting the threshold,
or fall-through with the best color and highest ratio seen. -/
inductive ScanOut where
  | hit : Color → ScanOut
  | done : Color → ℝ → ScanOut

/-- The `for new_l in search_range` loop body of `ensure_contrast_ratio`:
return the first candidate meeting the buffered target, else track the best
ratio seen. -/
noncomputable def ecrScan (hq sq : ℚ) (bg : Color) (thr : ℝ) :
    List ℤ → Color → ℝ → ScanOut
  | [], best, maxc => .done best maxc
  | newL :: rest, best, maxc =>
    if thr ≤ contrast_ratio (hsl_to_rgb (hq, sq, (newL : ℚ))) bg then
      .hit (hsl_to_rgb (hq, sq, (newL : ℚ)))
    else if maxc < contrast_ratio (hsl_to_rgb (hq, sq, (newL : ℚ))) bg then
      ecrScan hq sq bg thr rest (hsl_to_rgb (hq, sq, (newL : ℚ)))
        (contrast_ratio (hsl_to_rgb (hq, sq, (newL : ℚ))) bg)
    else ecrScan hq sq bg thr rest best maxc

/-- The code after the loop in `ensure_contrast_ratio`: try pure white and
black against the buffered target, then fall back to the best raw ratio. -/
noncomputable def ecrPost (bg : Color) (thr : ℝ) (best : Color) (maxc : ℝ) : Color :=
  if thr ≤ contrast_ratio (255, 255, 255) bg ∧
      contrast_ratio (0, 0, 0) bg ≤ contrast_ratio (255, 255, 255) bg then (255, 255, 255)
  else if thr ≤ contrast_ratio (0, 0, 0) bg then (0, 0, 0)
  else if maxc < contrast_ratio (0, 0, 0) bg then (0, 0, 0)
  else if maxc < contrast_ratio (255, 255, 255) bg then (255, 255, 255)
  else best

/-- The scan order over lightness: background-aware, downward first over a
light background and upward first over a dark one, starting from the
truncated current lightness. -/
noncomputable def search_order (text_rgb bg_rgb : Color) : List ℤ :=
  if 1/2 < get_luminance bg_rgb then
    pyRangeDown (pytrunc (rgb_to_hsl text_rgb).2.2) ++ pyRangeUp (pytrunc (rgb_to_hsl text_rgb).2.2)
  else
    pyRangeUp (pytrunc (rgb_to_hsl text_rgb).2.2) ++ pyRangeDown (pytrunc (rgb_to_hsl text_rgb).2.2)

/-- Resolution of the scan's outcome: an early return is final, a
fall-through goes to the black/white/best fallback code. -/
noncomputable def scanResolve (bg : Color) (thr : ℝ) : ScanOut → Color
  | .hit c => c
  | .done best maxc => ecrPost bg thr best maxc

/-- `ensure_contrast_ratio` of ColorSim (the default target in the source is
7.0 and the buffer is 0.1). -/
noncomputable def ensure_contrast_ratio (text_rgb bg_rgb : Color) (target : ℝ) : Color :=
  if target + 0.1 ≤ contrast_ratio text_rgb bg_rgb then text_rgb
  else
    scanResolve bg_rgb (target + 0.1)
      (ecrScan (rgb_to_hsl text_rgb).1 (rgb_to_hsl text_rgb).2.1 bg_rgb (target + 0.1)
        (search_order text_rgb bg_rgb) text_rgb (contrast_ratio text_rgb bg_rgb))

/-- C3: a foreground already meeting the buffered target is returned
unchanged by `ensure_contrast_ratio`. -/
theorem claim_C3_idempotence (fg bg : Color) (target : ℝ)
    (h : target + 0.1 ≤ contrast_ratio fg bg) :
    ensure_contrast_ratio fg bg target = fg := by
  unfold ensure_contrast_ratio
  rw [if_pos h]

theorem contrast_ratio_white_black : contrast_ratio (255, 255, 255) (0, 0, 0) = 21 := by
  rw [contrast_ratio_comm, contrast_ratio_black (by decide), get_luminance_white]
  norm_num

/-- Witness for C3: white on black at target 7. -/
theorem claim_C3_idempotence_witness :
    7 + 0.1 ≤ contrast_ratio (255, 255, 255) (0, 0, 0) ∧
    ensure_contrast_ratio (255, 255, 255) (0, 0, 0) 7 = (255, 255, 255) := by
  have h : (7 : ℝ) + 0.1 ≤ contrast_ratio (255, 255, 255) (0, 0, 0) := by
    rw [contrast_ratio_white_black]
    norm_num
  exact ⟨h, claim_C3_idempotence (255, 255, 255) (0, 0, 0) 7 h⟩

/-- The predicate the scan tests: the candidate at lightness `l` clears the
buffered target against `bg`. -/
noncomputable def hitPred (hq sq : ℚ) (bg : Color) (thr : ℝ) (l : ℤ) : Bool :=
  decide (thr ≤ contrast_ratio (hsl_to_rgb (hq, sq, (l : ℚ))) bg)

/-- An early return of the scan always carries a candidate clearing the
buffered target. -/
theorem ecrScan_hit_prop (hq sq : ℚ) (bg : Color) (thr : ℝ) :
    ∀ (list : List ℤ) (best : Color) (maxc : ℝ) (c : Color),
      ecrScan hq sq bg thr list best maxc = .hit c → thr ≤ contrast_ratio c bg := by
  intro list
  induction list with
  | nil =>
    intro best maxc c h
    rw [ecrScan] at h
    exact absurd h (by simp)
  | cons a t ih =>
    intro best maxc c h
    rw [ecrScan] at h
    by_cases hp : thr ≤ contrast_ratio (hsl_to_rgb (hq, sq, (a : ℚ))) bg
    · rw [if_pos hp] at h
      injection h with h
      rw [← h]
      exact hp
    · rw [if_neg hp] at h
      split at h
      · exact ih _ _ _ h
      · exact ih _ _ _ h

/-- The scan's early return is exactly the first candidate, in scan order,
that clears the buffered target. -/
theorem ecrScan_eq_hit (hq sq : ℚ) (bg : Color) (thr : ℝ) :
    ∀ (list : List ℤ) (best : Color) (maxc : ℝ) (l0 : ℤ),
      list.find? (hitPred hq sq bg thr) = some l0 →
      ecrScan hq sq bg thr list best maxc = .hit (hsl_to_rgb (hq, sq, (l0 : ℚ))) := by
  intro list
  induction list with
  | nil =>
    intro best maxc l0 h
    simp at h
  | cons a t ih =>
    intro best maxc l0 h
    by_cases hp : thr ≤ contrast_ratio (hsl_to_rgb (hq, sq, (a : ℚ))) bg
    · rw [List.find?_cons_of_pos _ (by simpa [hitPred] using hp)] at h
      injection h with h
      subst h
      rw [ecrScan, if_pos hp]
    · rw [List.find?_cons_of_neg _ (by simpa [hitPred] using hp)] at h
      rw [ecrScan, if_neg hp]
      split
      · exact ih _ _ _ h
      · exact ih _ _ _ h

/-- Fall-through of the scan: the final best/maximum pair is consistent, never
decreases, and dominates every scanned candidate. -/
theorem ecrScan_done_inv (hq sq : ℚ) (bg : Color) (thr : ℝ) :
    ∀ (list : List ℤ) (best : Color) (maxc : ℝ) (b' : Color) (m' : ℝ),
      contrast_ratio best bg = maxc →
      ecrScan hq sq bg thr list best maxc = .done b' m' →
      contrast_ratio b' bg = m' ∧ maxc ≤ m' ∧
        ∀ l ∈ list, contrast_ratio (hsl_to_rgb (hq, sq, (l : ℚ))) bg ≤ m' := by
  intro list
  induction list with
  | nil =>
    intro best maxc b' m' hbest h
    rw [ecrScan] at h
    injection h with h1 h2
    subst h1
    subst h2
    exact ⟨hbest, le_refl _, by simp⟩
  | cons a t ih =>
    intro best maxc b' m' hbest h
    rw [ecrScan] at h
    by_cases hp : thr ≤ contrast_ratio (hsl_to_rgb (hq, sq, (a : ℚ))) bg
    · rw [if_pos hp] at h
      exact absurd h (by simp)
    · rw [if_neg hp] at h
      by_cases hm : maxc < contrast_ratio (hsl_to_rgb (hq, sq, (a : ℚ))) bg
      · rw [if_pos hm] at h
        obtain ⟨g1, g2, g3⟩ := ih _ _ _ _ rfl h
        refine ⟨g1, le_trans (le_of_lt hm) g2, ?_⟩
        intro l hl
        rcases List.mem_cons.mp hl with rfl | hl
        · exact g2
        · exact g3 l hl
      · rw [if_neg hm] at h
        obtain ⟨g1, g2, g3⟩ := ih _ _ _ _ hbest h
        refine ⟨g1, g2, ?_⟩
        intro l hl
        rcases List.mem_cons.mp hl with rfl | hl
        · push_neg at hm
          exact le_trans hm g2
        · exact g3 l hl

/-- After the loop the result is white, black, or the tracked best. -/
theorem ecrPost_cases (bg : Color) (thr : ℝ) (best : Color) (maxc : ℝ) :
    ecrPost bg thr best maxc = (255, 255, 255) ∨ ecrPost bg thr best maxc = (0, 0, 0) ∨
    ecrPost bg thr best maxc = best := by
  unfold ecrPost
  split
  · left; rfl
  split
  · right; left; rfl
  split
  · right; left; rfl
  split
  · left; rfl
  · right; right; rfl

/-- The scan order always visits lightness 0 and lightness 100. -/
theorem search_order_endpoints {fg bg : Color} (hfg : Valid fg) :
    (0 : ℤ) ∈ search_order fg bg ∧ (100 : ℤ) ∈ search_order fg bg := by
  obtain ⟨_, _, hl0, hl1⟩ := rgb_to_hsl_bounds hfg
  have ht0 : 0 ≤ pytrunc (rgb_to_hsl fg).2.2 := pytrunc_nonneg hl0
  have ht1 : pytrunc (rgb_to_hsl fg).2.2 ≤ 100 :=
    pytrunc_le_of_le hl0 (by exact_mod_cast hl1)
  unfold search_order
  split
  · constructor
    · exact List.mem_append.mpr (Or.inl (mem_pyRangeDown.mpr ⟨le_refl 0, ht0⟩))
    · exact List.mem_append.mpr (Or.inr (mem_pyRangeUp.mpr ⟨ht1, le_refl 100⟩))
  · constructor
    · exact List.mem_append.mpr (Or.inr (mem_pyRangeDown.mpr ⟨le_refl 0, ht0⟩))
    · exact List.mem_append.mpr (Or.inl (mem_pyRangeUp.mpr ⟨ht1, le_refl 100⟩))

/-- Disjunctive description of `ensure_contrast_ratio`: it returns a color
clearing the buffered target, or pure black, or pure white, or a color at
least as contrasting as both extremes. -/
theorem ensure_contrast_ratio_spec (fg bg : Color) (target : ℝ) (hfg : Valid fg) :
    target + 0.1 ≤ contrast_ratio (ensure_contrast_ratio fg bg target) bg ∨
    ensure_contrast_ratio fg bg target = (0, 0, 0) ∨
    ensure_contrast_ratio fg bg target = (255, 255, 255) ∨
    max (contrast_ratio (0, 0, 0) bg) (contrast_ratio (255, 255, 255) bg)
      ≤ contrast_ratio (ensure_contrast_ratio fg bg target) bg := by
  unfold ensure_contrast_ratio
  by_cases h0 : target + 0.1 ≤ contrast_ratio fg bg
  · rw [if_pos h0]
    left
    exact h0
  · rw [if_neg h0]
    rcases hsc : ecrScan (rgb_to_hsl fg).1 (rgb_to_hsl fg).2.1 bg (target + 0.1)
        (search_order fg bg) fg (contrast_ratio fg bg) with c | ⟨best, maxc⟩
    · simp only [scanResolve]
      left
      exact ecrScan_hit_prop _ _ _ _ _ _ _ _ hsc
    · simp only [scanResolve]
      obtain ⟨g1, g2, g3⟩ := ecrScan_done_inv _ _ _ _ _ _ _ _ _ rfl hsc
      obtain ⟨hm0, hm100⟩ := @search_order_endpoints fg bg hfg
      have hb' : contrast_ratio (0, 0, 0) bg ≤ maxc := by
        have := g3 0 hm0
        rw [show (((0 : ℤ) : ℚ)) = 0 from by norm_num, hsl_to_rgb_black] at this
        exact this
      have hw' : contrast_ratio (255, 255, 255) bg ≤ maxc := by
        have := g3 100 hm100
        rw [show (((100 : ℤ) : ℚ)) = 100 from by norm_num, hsl_to_rgb_white] at this
        exact this
      rcases ecrPost_cases bg (target + 0.1) best maxc with h | h | h
      · rw [h]
        right; right; left; rfl
      · rw [h]
        right; left; rfl
      · rw [h]
        right; right; right
        rw [g1]
        exact max_le hb' hw'

/-- C1: for a target that is reachable against `bg` (and at most 21), the
result of `ensure_contrast_ratio` either meets the target against `bg` or is
pure black or pure white. -/
theorem claim_C1_guarantee_or_fallback (fg bg : Color) (target : ℝ)
    (hfg : Valid fg) (hbg : Valid bg)
    (hreach : ∃ c, Valid c ∧ target ≤ contrast_ratio c bg) (h21 : target ≤ 21) :
    target ≤ contrast_ratio (ensure_contrast_ratio fg bg target) bg ∨
    ensure_contrast_ratio fg bg target = (0, 0, 0) ∨
    ensure_contrast_ratio fg bg target = (255, 255, 255) := by
  rcases ensure_contrast_ratio_spec fg bg target hfg with h | h | h | h
  · left
    linarith
  · right; left; exact h
  · right; right; exact h
  · left
    obtain ⟨c, hcv, hcr⟩ := hreach
    calc target ≤ contrast_ratio c bg := hcr
      _ ≤ max (contrast_ratio (0, 0, 0) bg) (contrast_ratio (255, 255, 255) bg) :=
          contrast_ratio_le_bw hcv hbg
      _ ≤ contrast_ratio (ensure_contrast_ratio fg bg target) bg := h

/-- Witness for C1 at white on black, target 7. -/
theorem claim_C1_guarantee_or_fallback_witness :
    Valid ((255, 255, 255) : Color) ∧ Valid ((0, 0, 0) : Color) ∧
    (∃ c, Valid c ∧ (7 : ℝ) ≤ contrast_ratio c (0, 0, 0)) ∧ (7 : ℝ) ≤ 21 ∧
    ((7 : ℝ) ≤ contrast_ratio (ensure_contrast_ratio (255, 255, 255) (0, 0, 0) 7) (0, 0, 0) ∨
      ensure_contrast_ratio (255, 255, 255) (0, 0, 0) 7 = (0, 0, 0) ∨
      ensure_contrast_ratio (255, 255, 255) (0, 0, 0) 7 = (255, 255, 255)) := by
  have hreach : ∃ c, Valid c ∧ (7 : ℝ) ≤ contrast_ratio c (0, 0, 0) := by
    refine ⟨(255, 255, 255), by decide, ?_⟩
    rw [contrast_ratio_white_black]
    norm_num
  exact ⟨by decide, by decide, hreach, by norm_num,
    claim_C1_guarantee_or_fallback (255, 255, 255) (0, 0, 0) 7 (by decide) (by decide)
      hreach (by norm_num)⟩

/- The darkening scenario of C5: (200,200,200) against white at target 7. -/

theorem rgb_to_hsl_gray (v : ℤ) : rgb_to_hsl (v, v, v) = (0, 0, (v : ℚ) / 255 * 100) := by
  unfold rgb_to_hsl rgb_to_hls
  simp only [max_self, min_self, if_pos rfl]
  norm_num

theorem hsl_to_rgb_s0 (h l : ℚ) :
    hsl_to_rgb (h, 0, l)
      = (pytrunc (l / 100 * 255), pytrunc (l / 100 * 255), pytrunc (l / 100 * 255)) := by
  unfold hsl_to_rgb hls_to_rgb
  norm_num

theorem hsl_gray200 : rgb_to_hsl (200, 200, 200) = (0, 0, 4000 / 51) := by
  rw [rgb_to_hsl_gray]
  norm_num

theorem lum_200_lo : (0.5 : ℝ) ≤ get_luminance (200, 200, 200) := by
  have h : srgbLin ((40 : ℝ) / 51) = (((40 : ℝ) / 51 + 0.055) / 1.055) ^ (2.4 : ℝ) :=
    srgbLin_high (by norm_num)
  have hb0 : (0 : ℝ) ≤ ((40 : ℝ) / 51 + 0.055) / 1.055 := by norm_num
  have hb1 : ((40 : ℝ) / 51 + 0.055) / 1.055 ≤ 1 := by norm_num
  have hcube := cube_le_rpow24 hb0 hb1
  have h3 : (0.5 : ℝ) ≤ (((40 : ℝ) / 51 + 0.055) / 1.055) ^ 3 := by norm_num
  have hlin : (0.5 : ℝ) ≤ srgbLin ((40 : ℝ) / 51) := by
    rw [h]
    linarith
  unfold get_luminance
  norm_num
  nlinarith [hlin]

theorem ratio_200_white_lt : contrast_ratio (200, 200, 200) (255, 255, 255) < 7 + 0.1 := by
  have hv : Valid ((200, 200, 200) : Color) := by decide
  rw [contrast_ratio_comm, contrast_ratio_white hv]
  have hlo := lum_200_lo
  rw [div_lt_iff (by linarith)]
  nlinarith

theorem ensure_200_white :
    ∃ l0 : ℤ, 0 ≤ l0 ∧ l0 ≤ 78 ∧
      ensure_contrast_ratio (200, 200, 200) (255, 255, 255) 7
        = hsl_to_rgb (0, 0, (l0 : ℚ)) ∧
      7 + 0.1 ≤ contrast_ratio (hsl_to_rgb (0, 0, (l0 : ℚ))) (255, 255, 255) := by
  have hwhite : (1 : ℝ)/2 < get_luminance (255, 255, 255) := by
    rw [get_luminance_white]
    norm_num
  have htr : pytrunc ((4000 : ℚ) / 51) = 78 := by
    rw [pytrunc_of_nonneg (by norm_num)]
    rw [Int.floor_eq_iff]
    norm_num
  have hso : search_order (200, 200, 200) (255, 255, 255) = pyRangeDown 78 ++ pyRangeUp 78 := by
    unfold search_order
    rw [if_pos hwhite, hsl_gray200]
    norm_num [htr]
  have hpred0 : hitPred 0 0 (255, 255, 255) (7 + 0.1) 0 = true := by
    unfold hitPred
    rw [decide_eq_true_iff]
    rw [show (((0 : ℤ) : ℚ)) = 0 from by norm_num, hsl_to_rgb_black]
    rw [contrast_ratio_comm, contrast_ratio_white (by decide), get_luminance_black]
    norm_num
  have hsome : ((pyRangeDown 78).find? (hitPred 0 0 (255, 255, 255) (7 + 0.1))).isSome := by
    rw [List.find?_isSome]
    exact ⟨0, mem_pyRangeDown.mpr ⟨le_refl 0, by norm_num⟩, hpred0⟩
  obtain ⟨l0, hfd⟩ := Option.isSome_iff_exists.mp hsome
  have hmem := mem_pyRangeDown.mp (List.mem_of_find?_eq_some hfd)
  have hfull : (search_order (200, 200, 200) (255, 255, 255)).find?
      (hitPred (rgb_to_hsl (200, 200, 200)).1 (rgb_to_hsl (200, 200, 200)).2.1
        (255, 255, 255) (7 + 0.1)) = some l0 := by
    rw [hsl_gray200, hso]
    rw [List.find?_append]
    show (((pyRangeDown 78).find? (hitPred 0 0 (255, 255, 255) (7 + 0.1))).or
      ((pyRangeUp 78).find? (hitPred 0 0 (255, 255, 255) (7 + 0.1)))) = some l0
    rw [hfd]
    rfl
  have hres : ensure_contrast_ratio (200, 200, 200) (255, 255, 255) 7
      = hsl_to_rgb ((rgb_to_hsl (200, 200, 200)).1, (rgb_to_hsl (200, 200, 200)).2.1,
        (l0 : ℚ)) := by
    unfold ensure_contrast_ratio
    rw [if_neg (not_le.mpr ratio_200_white_lt)]
    rw [ecrScan_eq_hit _ _ _ _ _ _ _ _ hfull]
    simp only [scanResolve]
  have hprop := List.find?_some hfd
  unfold hitPred at hprop
  rw [decide_eq_true_iff] at hprop
  refine ⟨l0, hmem.1, hmem.2, ?_, hprop⟩
  rw [hres, hsl_gray200]

/-- C5: when the current ratio misses the buffered target,
`ensure_contrast_ratio` scans integer lightness values with the foreground's
hue and saturation fixed — downward from the truncated lightness to 0 and
then up to 100 when the background luminance exceeds 0.5, in the opposite
order otherwise — and returns the candidate of the first lightness in scan
order clearing target + 0.1; on (200,200,200) against white at target 7 this
yields a color of strictly lower lightness with contrast at least 7.1. -/
theorem claim_C5_scan_first_hit (fg bg : Color) (target : ℝ)
    (hcur : contrast_ratio fg bg < target + 0.1) :
    (search_order fg bg =
      if 1/2 < get_luminance bg then
        pyRangeDown (pytrunc (rgb_to_hsl fg).2.2) ++ pyRangeUp (pytrunc (rgb_to_hsl fg).2.2)
      else
        pyRangeUp (pytrunc (rgb_to_hsl fg).2.2) ++ pyRangeDown (pytrunc (rgb_to_hsl fg).2.2)) ∧
    (∀ l0 : ℤ,
      (search_order fg bg).find?
          (hitPred (rgb_to_hsl fg).1 (rgb_to_hsl fg).2.1 bg (target + 0.1)) = some l0 →
      ensure_contrast_ratio fg bg target
        = hsl_to_rgb ((rgb_to_hsl fg).1, (rgb_to_hsl fg).2.1, (l0 : ℚ))) ∧
    (rgb_to_hsl (ensure_contrast_ratio (200, 200, 200) (255, 255, 255) 7)).2.2
        < (rgb_to_hsl (200, 200, 200)).2.2 ∧
    7 + 0.1 ≤ contrast_ratio (ensure_contrast_ratio (200, 200, 200) (255, 255, 255) 7)
        (255, 255, 255) := by
  refine ⟨rfl, ?_, ?_, ?_⟩
  · intro l0 hf
    unfold ensure_contrast_ratio
    rw [if_neg (not_le.mpr hcur)]
    rw [ecrScan_eq_hit _ _ _ _ _ _ _ _ hf]
    simp only [scanResolve]
  · obtain ⟨l0, hl00, hl078, hres, _⟩ := ensure_200_white
    rw [hres, hsl_gray200, hsl_to_rgb_s0, rgb_to_hsl_gray]
    simp only
    have hv := pytrunc_le (q := (l0 : ℚ) / 100 * 255)
      (by positivity)
    have hcast : ((l0 : ℚ)) ≤ 78 := by exact_mod_cast hl078
    have : ((pytrunc ((l0 : ℚ) / 100 * 255) : ℚ)) ≤ 78 / 100 * 255 := by nlinarith
    nlinarith
  · obtain ⟨l0, _, _, hres, hge⟩ := ensure_200_white
    rw [hres]
    exact hge

/-- Witness for C5 on (200,200,200) against white at target 7. -/
theorem claim_C5_scan_first_hit_witness :
    contrast_ratio (200, 200, 200) (255, 255, 255) < 7 + 0.1 ∧
    (rgb_to_hsl (ensure_contrast_ratio (200, 200, 200) (255, 255, 255) 7)).2.2
        < (rgb_to_hsl (200, 200, 200)).2.2 :=
  ⟨ratio_200_white_lt,
    (claim_C5_scan_first_hit (200, 200, 200) (255, 255, 255) 7 ratio_200_white_lt).2.2.1⟩

/- The role assigner `get_role_map` and the harmonization pass of
`generate_css`. -/

/-- Circular hue distance, as in the local `hue_diff` of `get_role_map`. -/
def hue_diff (h1 h2 : ℚ) : ℚ := min |h1 - h2| (360 - |h1 - h2|)

/-- `score_color` of ColorSim (the optional target hue defaults to `none` in
the source). -/
def score_color (rgb : Color) (target_h : Option ℚ) : ℚ :=
  let hsl := rgb_to_hsl rgb
  let sat_score := hsl.2.1 * 1.5
  let lum_score := 100 - |50 - hsl.2.2| * 2.5
  let hue_score :=
    match target_h with
    | none => 0
    | some t => 100 - min |hsl.1 - t| (360 - |hsl.1 - t|)
  let penalty0 : ℚ := if hsl.2.2 < 20 ∨ 85 < hsl.2.2 then 50 else 0
  let penalty := penalty0 + (if hsl.2.1 < 10 then 30 else 0)
  sat_score + lum_score + hue_score - penalty

/-- `sorted(colors, key=score_color, reverse=True)`: a stable descending sort
by score. -/
def sorted_by_score (colors : List Color) : List Color :=
  colors.mergeSort (fun a b => decide (score_color b none ≤ score_color a none))

/-- `sorted(colors, key=hue distance from the primary hue, reverse=True)`. -/
def secondary_sorted (colors : List Color) (p_h : ℚ) : List Color :=
  colors.mergeSort
    (fun a b => decide (hue_diff (rgb_to_hsl b).1 p_h ≤ hue_diff (rgb_to_hsl a).1 p_h))

/-- `find_best_role` of `get_role_map`: pick the most saturated palette color
of the matching hue category and harmonize it toward the canonical hue, or
synthesize from the fallback hue. -/
def find_best_role (colors : List Color) (p_s : ℚ) (target_hue : ℚ) (category : Cat)
    (fallback_h : ℚ) : Color :=
  let candidates := colors.filter (fun c => decide (categorize_by_hue c = category))
  if candidates = [] then hsl_to_rgb (fallback_h, min (p_s + 20) 85, 45)
  else
    let best := (candidates.mergeSort
      (fun a b => decide ((rgb_to_hsl b).2.1 ≤ (rgb_to_hsl a).2.1))).headD (0, 0, 0)
    let h := (rgb_to_hsl best).1
    let diff0 := target_hue - h
    let diff1 := if 180 < diff0 then diff0 - 360 else diff0
    let diff2 := if diff1 < -180 then diff1 + 360 else diff1
    hsl_to_rgb (pymod360 (h + diff2 * 0.3),
      max 40 (min (rgb_to_hsl best).2.1 90), max 35 (min (rgb_to_hsl best).2.2 60))

/-- `sorted(colors, key=get_luminance)`: a stable ascending sort by relative
luminance. -/
noncomputable def sorted_by_lum (colors : List Color) : List Color :=
  colors.mergeSort (fun a b => decide (get_luminance a ≤ get_luminance b))

/-- The raw Light pick: the maximal-luminance color, with the source's
default for an empty palette. -/
noncomputable def raw_light (colors : List Color) : Color :=
  (sorted_by_lum colors).getLast?.getD (248, 249, 250)

/-- The raw Dark pick: the minimal-luminance color, with the source's default
for an empty palette. -/
noncomputable def raw_dark (colors : List Color) : Color :=
  (sorted_by_lum colors).head?.getD (33, 37, 41)

/-- The Light invariant enforcement: relighten to 95% lightness at the same
hue and saturation when the raw pick has luminance below 0.85. -/
noncomputable def enforce_light (colors : List Color) : Color :=
  if get_luminance (raw_light colors) < 0.85 then
    hsl_to_rgb ((rgb_to_hsl (raw_light colors)).1, (rgb_to_hsl (raw_light colors)).2.1, 95)
  else raw_light colors

/-- The Dark invariant enforcement: redarken to 5% lightness at the same hue
and saturation when the raw pick has luminance above 0.10. -/
noncomputable def enforce_dark (colors : List Color) : Color :=
  if 0.10 < get_luminance (raw_dark colors) then
    hsl_to_rgb ((rgb_to_hsl (raw_dark colors)).1, (rgb_to_hsl (raw_dark colors)).2.1, 5)
  else raw_dark colors

/-- The fixed, closed set of semantic roles of `get_role_map`. -/
structure RoleMap where
  Primary : Color
  Secondary : Color
  Success : Color
  Info : Color
  Warning : Color
  Danger : Color
  Light : Color
  Dark : Color
  Gray : Color
  Blue : Color
  Green : Color
  Red : Color
  Yellow : Color
  Cyan : Color
  Indigo : Color
  Purple : Color
  Pink : Color
  Orange : Color
  Teal : Color

/-- `get_role_map` of ColorSim. -/
noncomputable def get_role_map (colors : List Color) : RoleMap :=
  let primary := (sorted_by_score colors).headD (13, 110, 253)
  let p_h := (rgb_to_hsl primary).1
  let p_s := (rgb_to_hsl primary).2.1
  let secondary := if 1 < (secondary_sorted colors p_h).length
    then (secondary_sorted colors p_h).headD primary else primary
  let success := find_best_role colors p_s 120 Cat.green 120
  let warning := find_best_role colors p_s 45 Cat.yellow 45
  let danger := find_best_role colors p_s 0 Cat.red 0
  let info := find_best_role colors p_s 195 Cat.cyan 195
  let indigo := find_best_role colors p_s 264 Cat.blue 264
  let purple := find_best_role colors p_s 282 Cat.purple 282
  let pink := find_best_role colors p_s 330 Cat.pink 330
  let orange := find_best_role colors p_s 30 Cat.orange 30
  let teal := find_best_role colors p_s 160 Cat.green 160
  { Primary := primary
    Secondary := secondary
    Success := success
    Info := info
    Warning := warning
    Danger := danger
    Light := enforce_light colors
    Dark := enforce_dark colors
    Gray := (108, 117, 125)
    Blue := primary
    Green := success
    Red := danger
    Yellow := warning
    Cyan := info
    Indigo := indigo
    Purple := purple
    Pink := pink
    Orange := orange
    Teal := teal }

/-- The harmonization loop of `generate_css`: every listed role is replaced
by its contrast-corrected version against the fixed body background (Light
and Dark are not in the list and stay unchanged). -/
noncomputable def harmonize_roles (m : RoleMap) (body_bg : Color) : RoleMap :=
  { m with
    Primary := ensure_contrast_ratio m.Primary body_bg 7
    Secondary := ensure_contrast_ratio m.Secondary body_bg 7
    Success := ensure_contrast_ratio m.Success body_bg 7
    Info := ensure_contrast_ratio m.Info body_bg 7
    Warning := ensure_contrast_ratio m.Warning body_bg 7
    Danger := ensure_contrast_ratio m.Danger body_bg 7
    Gray := ensure_contrast_ratio m.Gray body_bg 7
    Blue := ensure_contrast_ratio m.Blue body_bg 7
    Indigo := ensure_contrast_ratio m.Indigo body_bg 7
    Purple := ensure_contrast_ratio m.Purple body_bg 7
    Pink := ensure_contrast_ratio m.Pink body_bg 7
    Red := ensure_contrast_ratio m.Red body_bg 7
    Orange := ensure_contrast_ratio m.Orange body_bg 7
    Yellow := ensure_contrast_ratio m.Yellow body_bg 7
    Green := ensure_contrast_ratio m.Green body_bg 7
    Teal := ensure_contrast_ratio m.Teal body_bg 7
    Cyan := ensure_contrast_ratio m.Cyan body_bg 7 }

/-- In the raw role map the hue aliases are the very colors of their base
roles. -/
theorem get_role_map_aliases (colors : List Color) :
    (get_role_map colors).Blue = (get_role_map colors).Primary ∧
    (get_role_map colors).Green = (get_role_map colors).Success ∧
    (get_role_map colors).Red = (get_role_map colors).Danger ∧
    (get_role_map colors).Yellow = (get_role_map colors).Warning ∧
    (get_role_map colors).Cyan = (get_role_map colors).Info :=
  ⟨rfl, rfl, rfl, rfl, rfl⟩

/-- C10: the hue-alias equalities survive the body-background harmonization
pass of `generate_css`, because each alias starts equal to its base role and
harmonization applies the same deterministic adjustment against the same
fixed body background. -/
theorem claim_C10_alias_preservation (colors : List Color) :
    (harmonize_roles (get_role_map colors) ((get_role_map colors).Light)).Blue
      = (harmonize_roles (get_role_map colors) ((get_role_map colors).Light)).Primary ∧
    (harmonize_roles (get_role_map colors) ((get_role_map colors).Light)).Green
      = (harmonize_roles (get_role_map colors) ((get_role_map colors).Light)).Success ∧
    (harmonize_roles (get_role_map colors) ((get_role_map colors).Light)).Red
      = (harmonize_roles (get_role_map colors) ((get_role_map colors).Light)).Danger ∧
    (harmonize_roles (get_role_map colors) ((get_role_map colors).Light)).Yellow
      = (harmonize_roles (get_role_map colors) ((get_role_map colors).Light)).Warning ∧
    (harmonize_roles (get_role_map colors) ((get_role_map colors).Light)).Cyan
      = (harmonize_roles (get_role_map colors) ((get_role_map colors).Light)).Info := by
  obtain ⟨a1, a2, a3, a4, a5⟩ := get_role_map_aliases colors
  unfold harmonize_roles
  refine ⟨?_, ?_, ?_, ?_, ?_⟩
  · simp only [a1]
  · simp only [a2]
  · simp only [a3]
  · simp only [a4]
  · simp only [a5]

theorem get_role_map_Light (colors : List Color) :
    (get_role_map colors).Light = enforce_light colors := rfl

theorem get_role_map_Dark (colors : List Color) :
    (get_role_map colors).Dark = enforce_dark colors := rfl

theorem pytrunc_lt_of_lt {q : ℚ} {n : ℤ} (h0 : 0 ≤ q) (hq : q < (n : ℚ)) : pytrunc q < n := by
  rw [pytrunc_of_nonneg h0]
  exact Int.floor_lt.mpr (by exact_mod_cast hq)

theorem raw_dark_valid {colors : List Color} (hcol : ∀ c ∈ colors, Valid c) :
    Valid (raw_dark colors) := by
  unfold raw_dark
  cases hh : (sorted_by_lum colors).head? with
  | none =>
    simp only [Option.getD_none]
    decide
  | some c =>
    simp only [Option.getD_some]
    apply hcol
    have hmem : c ∈ sorted_by_lum colors := by
      apply List.mem_of_mem_head?
      rw [hh]
      rfl
    unfold sorted_by_lum at hmem
    exact List.mem_mergeSort.mp hmem

/-- Channels of a 5%-lightness color are at most 25. -/
theorem hsl_to_rgb_l5 {h s : ℚ} (hs0 : 0 ≤ s) (hs1 : s ≤ 100) :
    0 ≤ (hsl_to_rgb (h, s, 5)).1 ∧ (hsl_to_rgb (h, s, 5)).1 ≤ 25 ∧
    0 ≤ (hsl_to_rgb (h, s, 5)).2.1 ∧ (hsl_to_rgb (h, s, 5)).2.1 ≤ 25 ∧
    0 ≤ (hsl_to_rgb (h, s, 5)).2.2 ∧ (hsl_to_rgb (h, s, 5)).2.2 ≤ 25 := by
  have key : ∀ v : ℚ, 0 ≤ v → v ≤ 1/10 → 0 ≤ pytrunc (v * 255) ∧ pytrunc (v * 255) ≤ 25 := by
    intro v hv0 hv1
    constructor
    · exact pytrunc_nonneg (by nlinarith)
    · have : pytrunc (v * 255) < 26 := pytrunc_lt_of_lt (by nlinarith) (by push_cast; nlinarith)
      omega
  unfold hsl_to_rgb hls_to_rgb
  simp only
  have hs0' : (0 : ℚ) ≤ s / 100 := by positivity
  have hs1' : s / 100 ≤ 1 := by
    rw [div_le_one (by norm_num)]
    exact hs1
  by_cases hz : s / 100 = 0
  · rw [if_pos hz]
    obtain ⟨k1, k2⟩ := key ((5 : ℚ) / 100) (by norm_num) (by norm_num)
    exact ⟨k1, k2, k1, k2, k1, k2⟩
  · rw [if_neg hz]
    have hl2 : ((5 : ℚ) / 100 ≤ 1/2) := by norm_num
    rw [if_pos hl2]
    have hq1 : (0 : ℚ) ≤ 2 * ((5 : ℚ) / 100) - 5 / 100 * (1 + s / 100) := by nlinarith
    have hq2 : 2 * ((5 : ℚ) / 100) - 5 / 100 * (1 + s / 100) ≤ 5 / 100 * (1 + s / 100) := by
      nlinarith
    have hq3 : (5 : ℚ) / 100 * (1 + s / 100) ≤ 1/10 := by nlinarith
    have hv1 := @vv_mem (2 * ((5 : ℚ) / 100) - 5 / 100 * (1 + s / 100))
      (5 / 100 * (1 + s / 100)) (h / 360 + 1/3) hq2
    have hv2 := @vv_mem (2 * ((5 : ℚ) / 100) - 5 / 100 * (1 + s / 100))
      (5 / 100 * (1 + s / 100)) (h / 360) hq2
    have hv3 := @vv_mem (2 * ((5 : ℚ) / 100) - 5 / 100 * (1 + s / 100))
      (5 / 100 * (1 + s / 100)) (h / 360 - 1/3) hq2
    obtain ⟨c1a, c1b⟩ := key _ (le_trans hq1 hv1.1) (le_trans hv1.2 hq3)
    obtain ⟨c2a, c2b⟩ := key _ (le_trans hq1 hv2.1) (le_trans hv2.2 hq3)
    obtain ⟨c3a, c3b⟩ := key _ (le_trans hq1 hv3.1) (le_trans hv3.2 hq3)
    exact ⟨c1a, c1b, c2a, c2b, c3a, c3b⟩

/-- A channel at most 25 has linearized value at most 0.022. -/
theorem srgbLin_ch25 {v : ℤ} (h0 : 0 ≤ v) (h1 : v ≤ 25) :
    srgbLin ((v : ℝ) / 255) ≤ 0.022 := by
  have hv25 : ((v : ℝ)) ≤ 25 := by exact_mod_cast h1
  have hv0 : (0 : ℝ) ≤ (v : ℝ) := by exact_mod_cast h0
  unfold srgbLin
  split
  · rw [div_le_iff (by norm_num)]
    rw [div_le_iff (by norm_num)] at *
    nlinarith
  · have hb0 : (0 : ℝ) ≤ ((v : ℝ) / 255 + 0.055) / 1.055 := by positivity
    have hb1 : ((v : ℝ) / 255 + 0.055) / 1.055 ≤ 1 := by
      rw [div_le_one (by norm_num)]
      linarith
    have hble : ((v : ℝ) / 255 + 0.055) / 1.055 ≤ 0.1451 := by
      rw [div_le_iff (by norm_num)]
      linarith
    have hsq := rpow24_le_sq hb0 hb1
    nlinarith

theorem lum_redark_le {c : Color} (hc : Valid c) :
    get_luminance (hsl_to_rgb ((rgb_to_hsl c).1, (rgb_to_hsl c).2.1, 5)) ≤ 0.10 := by
  obtain ⟨hs0, hs1, _, _⟩ := rgb_to_hsl_bounds hc
  obtain ⟨b1, b2, b3, b4, b5, b6⟩ := hsl_to_rgb_l5 (h := (rgb_to_hsl c).1) hs0 hs1
  unfold get_luminance
  have l1 := srgbLin_ch25 b1 b2
  have l2 := srgbLin_ch25 b3 b4
  have l3 := srgbLin_ch25 b5 b6
  have n1 := srgbLin_nonneg (x := ((hsl_to_rgb ((rgb_to_hsl c).1, (rgb_to_hsl c).2.1, 5)).1 : ℝ) / 255)
    (by positivity)
  nlinarith

/-- C2 counterexample input: the hue and saturation of pure blue. -/
theorem hsl_pure_blue : rgb_to_hsl (0, 0, 255) = (240, 100, 50) := by
  unfold rgb_to_hsl rgb_to_hls fract1
  norm_num

/-- Relightening pure blue to 95% lightness gives (229, 229, 255). -/
theorem relight_pure_blue : hsl_to_rgb (240, 100, 95) = (229, 229, 255) := by
  unfold hsl_to_rgb hls_to_rgb vv fract1 pytrunc
  norm_num

theorem lum_pure_blue : get_luminance (0, 0, 255) = 0.0722 := by
  unfold get_luminance srgbLin
  norm_num [Real.one_rpow]

theorem lum_relight_blue_lt : get_luminance (229, 229, 255) < 0.85 := by
  have h2 : srgbLin ((255 : ℝ) / 255) = 1 := by
    unfold srgbLin
    norm_num [Real.one_rpow]
  have h : srgbLin ((229 : ℝ) / 255) = (((229 : ℝ) / 255 + 0.055) / 1.055) ^ (2.4 : ℝ) :=
    srgbLin_high (by norm_num)
  have hb0 : (0 : ℝ) ≤ ((229 : ℝ) / 255 + 0.055) / 1.055 := by norm_num
  have hb1 : ((229 : ℝ) / 255 + 0.055) / 1.055 ≤ 1 := by norm_num
  have hsq := rpow24_le_sq hb0 hb1
  have hlt : srgbLin ((229 : ℝ) / 255) ≤ (((229 : ℝ) / 255 + 0.055) / 1.055) ^ 2 := by
    rw [h]
    exact hsq
  unfold get_luminance
  norm_num at hlt ⊢
  nlinarith [hlt, h2]

theorem light_single_blue : (get_role_map [((0 : ℤ), (0 : ℤ), (255 : ℤ))]).Light
    = (229, 229, 255) := by
  rw [get_role_map_Light]
  have hraw : raw_light [((0 : ℤ), (0 : ℤ), (255 : ℤ))] = (0, 0, 255) := by
    unfold raw_light sorted_by_lum
    rw [List.mergeSort_singleton]
    rfl
  unfold enforce_light
  rw [hraw]
  rw [if_pos (by rw [lum_pure_blue]; norm_num)]
  rw [hsl_pure_blue]
  exact relight_pure_blue

/-- C2 counterexample: on the one-color palette of pure blue the enforced
Light role is (229,229,255), whose luminance stays below 0.85 — the claimed
invariant `luminance(Light) ≥ 0.85` fails. -/
theorem claim_C2_light_counterexample :
    get_luminance ((get_role_map [((0 : ℤ), (0 : ℤ), (255 : ℤ))]).Light) < 0.85 := by
  rw [light_single_blue]
  exact lum_relight_blue_lt

/-- C2 (amended): the Dark half of the invariant holds for every valid
palette — `luminance(Dark) ≤ 0.10` after enforcement; on the Light side the
enforcement relightens to 95% lightness at the raw pick's own hue and
saturation exactly when the raw maximal-luminance color has luminance below
0.85, and only an already-compliant raw pick is guaranteed to satisfy
`luminance(Light) ≥ 0.85`. -/
theorem claim_C2_amended (colors : List Color) (hcol : ∀ c ∈ colors, Valid c) :
    get_luminance ((get_role_map colors).Dark) ≤ 0.10 ∧
    (0.85 ≤ get_luminance (raw_light colors) →
      (get_role_map colors).Light = raw_light colors ∧
      0.85 ≤ get_luminance ((get_role_map colors).Light)) ∧
    (get_luminance (raw_light colors) < 0.85 →
      (get_role_map colors).Light = hsl_to_rgb ((rgb_to_hsl (raw_light colors)).1,
        (rgb_to_hsl (raw_light colors)).2.1, 95)) := by
  refine ⟨?_, ?_, ?_⟩
  · rw [get_role_map_Dark]
    unfold enforce_dark
    by_cases hb : (0.10 : ℝ) < get_luminance (raw_dark colors)
    · rw [if_pos hb]
      exact lum_redark_le (raw_dark_valid hcol)
    · rw [if_neg hb]
      exact not_lt.mp hb
  · intro hge
    rw [get_role_map_Light]
    unfold enforce_light
    rw [if_neg (not_lt.mpr hge)]
    exact ⟨rfl, hge⟩
  · intro hlt
    rw [get_role_map_Light]
    unfold enforce_light
    rw [if_pos hlt]

/-- Witness for the amended C2 on the one-color pure blue palette. -/
theorem claim_C2_amended_witness :
    (∀ c ∈ [((0 : ℤ), (0 : ℤ), (255 : ℤ))], Valid c) ∧
    get_luminance ((get_role_map [((0 : ℤ), (0 : ℤ), (255 : ℤ))]).Dark) ≤ 0.10 := by
  have hcol : ∀ c ∈ [((0 : ℤ), (0 : ℤ), (255 : ℤ))], Valid c := by
    intro c hcm
    rw [List.mem_singleton] at hcm
    rw [hcm]
    decide
  exact ⟨hcol, (claim_C2_amended [((0 : ℤ), (0 : ℤ), (255 : ℤ))] hcol).1⟩

/- C7: role totality and documented defaults. -/

theorem lum_empty_light_default : (0.85 : ℝ) ≤ get_luminance (248, 249, 250) := by
  have h1 : srgbLin ((248 : ℝ) / 255) = (((248 : ℝ) / 255 + 0.055) / 1.055) ^ (2.4 : ℝ) :=
    srgbLin_high (by norm_num)
  have h2 : srgbLin ((83 : ℝ) / 85) = (((83 : ℝ) / 85 + 0.055) / 1.055) ^ (2.4 : ℝ) :=
    srgbLin_high (by norm_num)
  have h3 : srgbLin ((50 : ℝ) / 51) = (((50 : ℝ) / 51 + 0.055) / 1.055) ^ (2.4 : ℝ) :=
    srgbLin_high (by norm_num)
  have c1 := cube_le_rpow24 (b := ((248 : ℝ) / 255 + 0.055) / 1.055) (by norm_num) (by norm_num)
  have c2 := cube_le_rpow24 (b := ((83 : ℝ) / 85 + 0.055) / 1.055) (by norm_num) (by norm_num)
  have c3 := cube_le_rpow24 (b := ((50 : ℝ) / 51 + 0.055) / 1.055) (by norm_num) (by norm_num)
  have hlin1 : (0.92 : ℝ) ≤ srgbLin ((248 : ℝ) / 255) := by
    rw [h1]
    have : (0.92 : ℝ) ≤ (((248 : ℝ) / 255 + 0.055) / 1.055) ^ 3 := by norm_num
    linarith
  have hlin2 : (0.93 : ℝ) ≤ srgbLin ((83 : ℝ) / 85) := by
    rw [h2]
    have : (0.93 : ℝ) ≤ (((83 : ℝ) / 85 + 0.055) / 1.055) ^ 3 := by norm_num
    linarith
  have hlin3 : (0.94 : ℝ) ≤ srgbLin ((50 : ℝ) / 51) := by
    rw [h3]
    have : (0.94 : ℝ) ≤ (((50 : ℝ) / 51 + 0.055) / 1.055) ^ 3 := by norm_num
    linarith
  unfold get_luminance
  norm_num
  nlinarith [hlin1, hlin2, hlin3]

theorem lum_empty_dark_default : get_luminance (33, 37, 41) ≤ 0.10 := by
  have h1 : srgbLin ((11 : ℝ) / 85) = (((11 : ℝ) / 85 + 0.055) / 1.055) ^ (2.4 : ℝ) :=
    srgbLin_high (by norm_num)
  have h2 : srgbLin ((37 : ℝ) / 255) = (((37 : ℝ) / 255 + 0.055) / 1.055) ^ (2.4 : ℝ) :=
    srgbLin_high (by norm_num)
  have h3 : srgbLin ((41 : ℝ) / 255) = (((41 : ℝ) / 255 + 0.055) / 1.055) ^ (2.4 : ℝ) :=
    srgbLin_high (by norm_num)
  have c1 := rpow24_le_sq (b := ((11 : ℝ) / 85 + 0.055) / 1.055) (by norm_num) (by norm_num)
  have c2 := rpow24_le_sq (b := ((37 : ℝ) / 255 + 0.055) / 1.055) (by norm_num) (by norm_num)
  have c3 := rpow24_le_sq (b := ((41 : ℝ) / 255 + 0.055) / 1.055) (by norm_num) (by norm_num)
  have hlin1 : srgbLin ((11 : ℝ) / 85) ≤ 0.031 := by
    rw [h1]
    have : (((11 : ℝ) / 85 + 0.055) / 1.055) ^ 2 ≤ 0.031 := by norm_num
    linarith
  have hlin2 : srgbLin ((37 : ℝ) / 255) ≤ 0.036 := by
    rw [h2]
    have : (((37 : ℝ) / 255 + 0.055) / 1.055) ^ 2 ≤ 0.036 := by norm_num
    linarith
  have hlin3 : srgbLin ((41 : ℝ) / 255) ≤ 0.042 := by
    rw [h3]
    have : (((41 : ℝ) / 255 + 0.055) / 1.055) ^ 2 ≤ 0.042 := by norm_num
    linarith
  unfold get_luminance
  norm_num
  nlinarith [hlin1, hlin2, hlin3]

theorem role_map_empty_light : (get_role_map []).Light = (248, 249, 250) := by
  rw [get_role_map_Light]
  have hraw : raw_light [] = (248, 249, 250) := by
    unfold raw_light sorted_by_lum
    rw [List.mergeSort_nil]
    rfl
  unfold enforce_light
  rw [hraw]
  rw [if_neg (not_lt.mpr lum_empty_light_default)]

theorem role_map_empty_dark : (get_role_map []).Dark = (33, 37, 41) := by
  rw [get_role_map_Dark]
  have hraw : raw_dark [] = (33, 37, 41) := by
    unfold raw_dark sorted_by_lum
    rw [List.mergeSort_nil]
    rfl
  unfold enforce_dark
  rw [hraw]
  rw [if_neg (not_lt.mpr lum_empty_dark_default)]

theorem sorted_by_score_nil : sorted_by_score [] = [] := by
  unfold sorted_by_score
  exact List.mergeSort_nil

theorem secondary_sorted_nil (p_h : ℚ) : secondary_sorted [] p_h = [] := by
  unfold secondary_sorted
  exact List.mergeSort_nil

theorem role_map_empty_primary : (get_role_map []).Primary = (13, 110, 253) := by
  show (sorted_by_score []).headD (13, 110, 253) = (13, 110, 253)
  rw [sorted_by_score_nil]
  rfl

theorem headD_mergeSort_all_eq {L : List Color} {c : Color} (hne : L ≠ [])
    (hall : ∀ x ∈ L, x = c) (le : Color → Color → Bool) (d : Color) :
    (L.mergeSort le).headD d = c := by
  cases hM : L.mergeSort le with
  | nil =>
    exfalso
    have hlen := congrArg List.length hM
    rw [List.length_mergeSort] at hlen
    exact hne (List.length_eq_zero.mp hlen)
  | cons y ys =>
    simp only [List.headD_cons]
    apply hall
    have hy : y ∈ L.mergeSort le := by
      rw [hM]
      exact List.mem_cons_self y ys
    exact List.mem_mergeSort.mp hy

/-- With at most one distinct palette color, Secondary degenerates to
Primary. -/
theorem secondary_eq_primary_all_eq (c : Color) (L : List Color)
    (hall : ∀ x ∈ L, x = c) :
    (get_role_map L).Secondary = (get_role_map L).Primary := by
  by_cases hne : L = []
  · subst hne
    show (if 1 < (secondary_sorted []
        (rgb_to_hsl ((sorted_by_score []).headD (13, 110, 253))).1).length
      then (secondary_sorted []
        (rgb_to_hsl ((sorted_by_score []).headD (13, 110, 253))).1).headD
          ((sorted_by_score []).headD (13, 110, 253))
      else (sorted_by_score []).headD (13, 110, 253))
      = (sorted_by_score []).headD (13, 110, 253)
    rw [secondary_sorted_nil]
    norm_num
  · have hprim : (sorted_by_score L).headD (13, 110, 253) = c := by
      unfold sorted_by_score
      exact headD_mergeSort_all_eq hne hall _ _
    have hsec : ∀ p_h : ℚ, ∀ d : Color, (secondary_sorted L p_h).headD d = c := by
      intro p_h d
      unfold secondary_sorted
      exact headD_mergeSort_all_eq hne hall _ _
    show (if 1 < (secondary_sorted L
        (rgb_to_hsl ((sorted_by_score L).headD (13, 110, 253))).1).length
      then (secondary_sorted L
        (rgb_to_hsl ((sorted_by_score L).headD (13, 110, 253))).1).headD
          ((sorted_by_score L).headD (13, 110, 253))
      else (sorted_by_score L).headD (13, 110, 253))
      = (sorted_by_score L).headD (13, 110, 253)
    split
    · rw [hsec, hprim]
    · rfl

/-- C7: the role map is total with documented defaults — on the empty
palette Primary is (13,110,253), Light is (248,249,250), Dark is (33,37,41),
each categorical role is synthesized from its canonical hue at saturation
`min(primary saturation + 20, 85)` and lightness 45, and on an all-equal
palette Secondary equals Primary. -/
theorem claim_C7_role_totality :
    (get_role_map []).Primary = (13, 110, 253) ∧
    (get_role_map []).Light = (248, 249, 250) ∧
    (get_role_map []).Dark = (33, 37, 41) ∧
    ((get_role_map []).Success
        = hsl_to_rgb (120, min ((rgb_to_hsl (13, 110, 253)).2.1 + 20) 85, 45) ∧
      (get_role_map []).Warning
        = hsl_to_rgb (45, min ((rgb_to_hsl (13, 110, 253)).2.1 + 20) 85, 45) ∧
      (get_role_map []).Danger
        = hsl_to_rgb (0, min ((rgb_to_hsl (13, 110, 253)).2.1 + 20) 85, 45) ∧
      (get_role_map []).Info
        = hsl_to_rgb (195, min ((rgb_to_hsl (13, 110, 253)).2.1 + 20) 85, 45) ∧
      (get_role_map []).Indigo
        = hsl_to_rgb (264, min ((rgb_to_hsl (13, 110, 253)).2.1 + 20) 85, 45) ∧
      (get_role_map []).Purple
        = hsl_to_rgb (282, min ((rgb_to_hsl (13, 110, 253)).2.1 + 20) 85, 45) ∧
      (get_role_map []).Pink
        = hsl_to_rgb (330, min ((rgb_to_hsl (13, 110, 253)).2.1 + 20) 85, 45) ∧
      (get_role_map []).Orange
        = hsl_to_rgb (30, min ((rgb_to_hsl (13, 110, 253)).2.1 + 20) 85, 45) ∧
      (get_role_map []).Teal
        = hsl_to_rgb (160, min ((rgb_to_hsl (13, 110, 253)).2.1 + 20) 85, 45)) ∧
    (∀ (c : Color) (L : List Color), (∀ x ∈ L, x = c) →
      (get_role_map L).Secondary = (get_role_map L).Primary) := by
  have hcat : ∀ t : ℚ, ∀ cat : Cat, ∀ f : ℚ,
      find_best_role [] ((rgb_to_hsl ((sorted_by_score []).headD (13, 110, 253))).2.1) t cat f
        = hsl_to_rgb (f, min ((rgb_to_hsl (13, 110, 253)).2.1 + 20) 85, 45) := by
    intro t cat f
    rw [sorted_by_score_nil]
    rfl
  exact ⟨role_map_empty_primary, role_map_empty_light, role_map_empty_dark,
    ⟨hcat 120 Cat.green 120, hcat 45 Cat.yellow 45, hcat 0 Cat.red 0, hcat 195 Cat.cyan 195,
      hcat 264 Cat.blue 264, hcat 282 Cat.purple 282, hcat 330 Cat.pink 330,
      hcat 30 Cat.orange 30, hcat 160 Cat.green 160⟩,
    secondary_eq_primary_all_eq⟩

/-- Witness for C7's degenerate-palette conjunct on a duplicated color. -/
theorem claim_C7_role_totality_witness :
    (∀ x ∈ [((10 : ℤ), (20 : ℤ), (30 : ℤ)), ((10 : ℤ), (20 : ℤ), (30 : ℤ))],
      x = ((10 : ℤ), (20 : ℤ), (30 : ℤ))) ∧
    (get_role_map [((10 : ℤ), (20 : ℤ), (30 : ℤ)), ((10 : ℤ), (20 : ℤ), (30 : ℤ))]).Secondary
      = (get_role_map [((10 : ℤ), (20 : ℤ), (30 : ℤ)),
          ((10 : ℤ), (20 : ℤ), (30 : ℤ))]).Primary := by
  have hall : ∀ x ∈ [((10 : ℤ), (20 : ℤ), (30 : ℤ)), ((10 : ℤ), (20 : ℤ), (30 : ℤ))],
      x = ((10 : ℤ), (20 : ℤ), (30 : ℤ)) := by
    intro x hx
    rcases List.mem_cons.mp hx with rfl | hx
    · rfl
    · rcases List.mem_cons.mp hx with rfl | hx
      · rfl
      · exact absurd hx (List.not_mem_nil x)
  exact ⟨hall, claim_C7_role_totality.2.2.2.2 _ _ hall⟩

/- C6: the button-color search. -/

/-- Modelled from the spec: the darkening half of `makeButtonColor` (spec
§4.3), which is not present under src/ (the `get_ctbs_color` button rule in
src/ColorSim.py uses a contrast-plus-dead-zone computation instead) —
iteratively darken in lightness steps of 2, down to lightness 5, looking for
a background on which white text clears the target. The fuel argument only
bounds the iteration; 100 is enough for any in-range start. -/
noncomputable def button_dark_scan (h s : ℚ) (target : ℝ) : ℕ → ℚ → Option Color
  | 0, _ => none
  | fuel + 1, cur =>
    if cur < 5 then none
    else if target ≤ contrast_ratio (255, 255, 255) (hsl_to_rgb (h, s, cur)) then
      some (hsl_to_rgb (h, s, cur))
    else button_dark_scan h s target fuel (cur - 2)

/-- Modelled from the spec: the lightening half of `makeButtonColor` (spec
§4.3) — iteratively lighten in steps of 2, up to lightness 95, looking for a
background on which black text clears the target. -/
noncomputable def button_light_scan (h s : ℚ) (target : ℝ) : ℕ → ℚ → Option Color
  | 0, _ => none
  | fuel + 1, cur =>
    if 95 < cur then none
    else if target ≤ contrast_ratio (0, 0, 0) (hsl_to_rgb (h, s, cur)) then
      some (hsl_to_rgb (h, s, cur))
    else button_light_scan h s target fuel (cur + 2)

/-- Modelled from the spec: `makeButtonColor(base, target)` — darken first
for white text, then lighten for black text, then fall back to lightness 20
with white text. -/
noncomputable def make_button_color (base : Color) (target : ℝ) : Color × Color :=
  match button_dark_scan (rgb_to_hsl base).1 (rgb_to_hsl base).2.1 target 100
      (rgb_to_hsl base).2.2 with
  | some bg => (bg, (255, 255, 255))
  | none =>
    match button_light_scan (rgb_to_hsl base).1 (rgb_to_hsl base).2.1 target 100
        (rgb_to_hsl base).2.2 with
    | some bg => (bg, (0, 0, 0))
    | none => (hsl_to_rgb ((rgb_to_hsl base).1, (rgb_to_hsl base).2.1, 20), (255, 255, 255))

/-- How many lightness values the darkening scan visits from `cur` (steps of
2 while at least 5). -/
def descCount (cur : ℚ) : ℕ := if cur < 5 then 0 else (⌊(cur - 5) / 2⌋).toNat + 1

/-- How many lightness values the lightening scan visits from `cur` (steps
of 2 while at most 95). -/
def ascCount (cur : ℚ) : ℕ := if 95 < cur then 0 else (⌊(95 - cur) / 2⌋).toNat + 1

theorem descCount_step {cur : ℚ} (hc : ¬cur < 5) : descCount cur = descCount (cur - 2) + 1 := by
  unfold descCount
  rw [if_neg hc]
  by_cases hc2 : cur - 2 < 5
  · rw [if_pos hc2]
    have hz : ⌊(cur - 5) / 2⌋ = 0 := by
      rw [Int.floor_eq_iff]
      push_cast
      constructor
      · linarith [not_lt.mp hc]
      · linarith
    rw [hz]
    rfl
  · rw [if_neg hc2]
    have hsplit : (cur - 5) / 2 = (cur - 2 - 5) / 2 + 1 := by ring
    have hfl : ⌊(cur - 5) / 2⌋ = ⌊(cur - 2 - 5) / 2⌋ + 1 := by
      rw [hsplit]
      exact Int.floor_add_one _
    have hnn : 0 ≤ ⌊(cur - 2 - 5) / 2⌋ := by
      apply Int.floor_nonneg.mpr
      nlinarith [not_lt.mp hc2]
    omega

theorem ascCount_step {cur : ℚ} (hc : ¬95 < cur) : ascCount cur = ascCount (cur + 2) + 1 := by
  unfold ascCount
  rw [if_neg hc]
  by_cases hc2 : 95 < cur + 2
  · rw [if_pos hc2]
    have hz : ⌊(95 - cur) / 2⌋ = 0 := by
      rw [Int.floor_eq_iff]
      push_cast
      constructor
      · linarith [not_lt.mp hc]
      · linarith
    rw [hz]
    rfl
  · rw [if_neg hc2]
    have hsplit : (95 - cur) / 2 = (95 - (cur + 2)) / 2 + 1 := by ring
    have hfl : ⌊(95 - cur) / 2⌋ = ⌊(95 - (cur + 2)) / 2⌋ + 1 := by
      rw [hsplit]
      exact Int.floor_add_one _
    have hnn : 0 ≤ ⌊(95 - (cur + 2)) / 2⌋ := by
      apply Int.floor_nonneg.mpr
      nlinarith [not_lt.mp hc2]
    omega

/-- The iterative darkening scan is the first match over the stepped
candidate lightness values `cur, cur-2, ...` down to 5. -/
theorem button_dark_scan_eq (h s : ℚ) (target : ℝ) :
    ∀ (fuel : ℕ) (cur : ℚ), descCount cur ≤ fuel →
      button_dark_scan h s target fuel cur =
        ((List.range (descCount cur)).map
          (fun k : ℕ => hsl_to_rgb (h, s, cur - 2 * (k : ℚ)))).find?
          (fun c => decide (target ≤ contrast_ratio (255, 255, 255) c)) := by
  intro fuel
  induction fuel with
  | zero =>
    intro cur hle
    rw [Nat.le_zero.mp hle]
    rw [button_dark_scan]
    rfl
  | succ n ih =>
    intro cur hle
    rw [button_dark_scan]
    by_cases hc : cur < 5
    · rw [if_pos hc]
      have h0 : descCount cur = 0 := by
        unfold descCount
        rw [if_pos hc]
      rw [h0]
      rfl
    · rw [if_neg hc]
      rw [descCount_step hc]
      rw [List.range_succ_eq_map, List.map_cons]
      have hhead : cur - 2 * (((0 : ℕ) : ℚ)) = cur := by
        push_cast
        ring
      rw [hhead]
      by_cases hp : target ≤ contrast_ratio (255, 255, 255) (hsl_to_rgb (h, s, cur))
      · rw [if_pos hp]
        rw [List.find?_cons_of_pos _ (by simpa using hp)]
      · rw [if_neg hp]
        rw [List.find?_cons_of_neg _ (by simpa using hp)]
        rw [List.map_map]
        have hmap : (List.range (descCount (cur - 2))).map
            ((fun k : ℕ => hsl_to_rgb (h, s, cur - 2 * (k : ℚ))) ∘ Nat.succ)
            = (List.range (descCount (cur - 2))).map
              (fun k : ℕ => hsl_to_rgb (h, s, cur - 2 - 2 * (k : ℚ))) := by
          apply List.map_congr_left
          intro k _
          simp only [Function.comp]
          congr 1
          push_cast
          ring_nf
        rw [hmap]
        exact ih (cur - 2) (by rw [descCount_step hc] at hle; omega)

/-- The iterative lightening scan is the first match over the stepped
candidate lightness values `cur, cur+2, ...` up to 95. -/
theorem button_light_scan_eq (h s : ℚ) (target : ℝ) :
    ∀ (fuel : ℕ) (cur : ℚ), ascCount cur ≤ fuel →
      button_light_scan h s target fuel cur =
        ((List.range (ascCount cur)).map
          (fun k : ℕ => hsl_to_rgb (h, s, cur + 2 * (k : ℚ)))).find?
          (fun c => decide (target ≤ contrast_ratio (0, 0, 0) c)) := by
  intro fuel
  induction fuel with
  | zero =>
    intro cur hle
    rw [Nat.le_zero.mp hle]
    rw [button_light_scan]
    rfl
  | succ n ih =>
    intro cur hle
    rw [button_light_scan]
    by_cases hc : 95 < cur
    · rw [if_pos hc]
      have h0 : ascCount cur = 0 := by
        unfold ascCount
        rw [if_pos hc]
      rw [h0]
      rfl
    · rw [if_neg hc]
      rw [ascCount_step hc]
      rw [List.range_succ_eq_map, List.map_cons]
      have hhead : cur + 2 * (((0 : ℕ) : ℚ)) = cur := by
        push_cast
        ring
      rw [hhead]
      by_cases hp : target ≤ contrast_ratio (0, 0, 0) (hsl_to_rgb (h, s, cur))
      · rw [if_pos hp]
        rw [List.find?_cons_of_pos _ (by simpa using hp)]
      · rw [if_neg hp]
        rw [List.find?_cons_of_neg _ (by simpa using hp)]
        rw [List.map_map]
        have hmap : (List.range (ascCount (cur + 2))).map
            ((fun k : ℕ => hsl_to_rgb (h, s, cur + 2 * (k : ℚ))) ∘ Nat.succ)
            = (List.range (ascCount (cur + 2))).map
              (fun k : ℕ => hsl_to_rgb (h, s, cur + 2 + 2 * (k : ℚ))) := by
          apply List.map_congr_left
          intro k _
          simp only [Function.comp]
          congr 1
          push_cast
          ring_nf
        rw [hmap]
        exact ih (cur + 2) (by rw [ascCount_step hc] at hle; omega)

theorem descCount_le_100 {l : ℚ} (hl : l ≤ 100) : descCount l ≤ 100 := by
  unfold descCount
  split
  · omega
  · have hfl : ⌊(l - 5) / 2⌋ ≤ 47 := by
      calc ⌊(l - 5) / 2⌋ ≤ ⌊(95 / 2 : ℚ)⌋ := Int.floor_mono (by linarith)
        _ = 47 := by norm_num
    omega

theorem ascCount_le_100 {l : ℚ} (hl : 0 ≤ l) : ascCount l ≤ 100 := by
  unfold ascCount
  split
  · omega
  · have hfl : ⌊(95 - l) / 2⌋ ≤ 47 := by
      calc ⌊(95 - l) / 2⌋ ≤ ⌊(95 / 2 : ℚ)⌋ := Int.floor_mono (by linarith)
        _ = 47 := by norm_num
    omega

/-- C6 (modelled from the spec, as `makeButtonColor` is absent from src/):
the button-color search returns, in order of preference, the first stepped
darkening of the base (steps of 2 down to lightness 5) whose background lets
white text clear the target paired with white text; else the first stepped
lightening (up to lightness 95) whose background lets black text clear the
target paired with black text; else the lightness-20 background with white
text. -/
theorem claim_C6_make_button_color (base : Color) (target : ℝ) (hbase : Valid base) :
    make_button_color base target =
      match ((List.range (descCount (rgb_to_hsl base).2.2)).map
          (fun k : ℕ => hsl_to_rgb ((rgb_to_hsl base).1, (rgb_to_hsl base).2.1,
            (rgb_to_hsl base).2.2 - 2 * (k : ℚ)))).find?
          (fun c => decide (target ≤ contrast_ratio (255, 255, 255) c)) with
      | some bg => (bg, (255, 255, 255))
      | none =>
        match ((List.range (ascCount (rgb_to_hsl base).2.2)).map
            (fun k : ℕ => hsl_to_rgb ((rgb_to_hsl base).1, (rgb_to_hsl base).2.1,
              (rgb_to_hsl base).2.2 + 2 * (k : ℚ)))).find?
            (fun c => decide (target ≤ contrast_ratio (0, 0, 0) c)) with
        | some bg => (bg, (0, 0, 0))
        | none => (hsl_to_rgb ((rgb_to_hsl base).1, (rgb_to_hsl base).2.1, 20),
            (255, 255, 255)) := by
  obtain ⟨_, _, hl0, hl1⟩ := rgb_to_hsl_bounds hbase
  unfold make_button_color
  rw [button_dark_scan_eq _ _ _ _ _ (descCount_le_100 hl1)]
  rw [button_light_scan_eq _ _ _ _ _ (ascCount_le_100 hl0)]

/-- Witness for C6 at mid gray and target 7. -/
theorem claim_C6_make_button_color_witness :
    Valid ((128, 128, 128) : Color) ∧
    make_button_color (128, 128, 128) 7 =
      match ((List.range (descCount (rgb_to_hsl (128, 128, 128)).2.2)).map
          (fun k : ℕ => hsl_to_rgb ((rgb_to_hsl (128, 128, 128)).1,
            (rgb_to_hsl (128, 128, 128)).2.1,
            (rgb_to_hsl (128, 128, 128)).2.2 - 2 * (k : ℚ)))).find?
          (fun c => decide ((7 : ℝ) ≤ contrast_ratio (255, 255, 255) c)) with
      | some bg => (bg, (255, 255, 255))
      | none =>
        match ((List.range (ascCount (rgb_to_hsl (128, 128, 128)).2.2)).map
            (fun k : ℕ => hsl_to_rgb ((rgb_to_hsl (128, 128, 128)).1,
              (rgb_to_hsl (128, 128, 128)).2.1,
              (rgb_to_hsl (128, 128, 128)).2.2 + 2 * (k : ℚ)))).find?
            (fun c => decide ((7 : ℝ) ≤ contrast_ratio (0, 0, 0) c)) with
        | some bg => (bg, (0, 0, 0))
        | none => (hsl_to_rgb ((rgb_to_hsl (128, 128, 128)).1,
            (rgb_to_hsl (128, 128, 128)).2.1, 20), (255, 255, 255)) :=
  ⟨by decide, claim_C6_make_button_color (128, 128, 128) 7 (by decide)⟩

theorem fract1_eq_sub_one {q : ℚ} (h0 : 1 ≤ q) (h1 : q < 2) : fract1 q = q - 1 := by
  unfold fract1
  have : ⌊q⌋ = 1 := by
    apply Int.floor_eq_iff.mpr
    constructor <;> push_cast <;> linarith
  rw [this]
  push_cast
  ring

theorem vv_eval {m1 m2 : ℚ} {hue f : ℚ} (hf : fract1 hue = f) :
    vv m1 m2 hue = if f < 1/6 then m1 + (m2 - m1) * f * 6
      else if f < 1/2 then m2
      else if f < 2/3 then m1 + (m2 - m1) * (2/3 - f) * 6
      else m1 := by
  unfold vv
  rw [hf]

set_option maxHeartbeats 3200000 in
/-- Exactness of the HLS round trip at the `colorsys` level. -/
theorem hls_round_trip {r g b : ℚ} (ha1 : 0 ≤ r) (ha2 : 0 ≤ g) (ha3 : 0 ≤ b)
    (hb1 : r ≤ 1) (hb2 : g ≤ 1) (hb3 : b ≤ 1) :
    hls_to_rgb (rgb_to_hls r g b).1 (rgb_to_hls r g b).2.1 (rgb_to_hls r g b).2.2
      = (r, g, b) := by
  unfold rgb_to_hls
  by_cases heq : min r (min g b) = max r (max g b)
  · rw [if_pos heq]
    have hrM : r ≤ max r (max g b) := le_max_left _ _
    have hgM : g ≤ max r (max g b) := le_trans (le_max_left g b) (le_max_right r _)
    have hbM : b ≤ max r (max g b) := le_trans (le_max_right g b) (le_max_right r _)
    have hmr : min r (min g b) ≤ r := min_le_left _ _
    have hmg : min r (min g b) ≤ g := le_trans (min_le_right _ _) (min_le_left g b)
    have hmb : min r (min g b) ≤ b := le_trans (min_le_right _ _) (min_le_right g b)
    have hr : r = max r (max g b) := le_antisymm hrM (heq ▸ hmr)
    have hg : g = max r (max g b) := le_antisymm hgM (heq ▸ hmg)
    have hb : b = max r (max g b) := le_antisymm hbM (heq ▸ hmb)
    unfold hls_to_rgb
    rw [if_pos rfl]
    simp only
    rw [Prod.ext_iff, Prod.ext_iff]
    refine ⟨?_, ?_, ?_⟩ <;> simp only <;> linarith
  · rw [if_neg heq]
    simp only
    set M := max r (max g b) with hMdef
    set m := min r (min g b) with hmdef
    have hrM : r ≤ M := le_max_left _ _
    have hgM : g ≤ M := le_trans (le_max_left g b) (le_max_right r _)
    have hbM : b ≤ M := le_trans (le_max_right g b) (le_max_right r _)
    have hmr : m ≤ r := min_le_left _ _
    have hmg : m ≤ g := le_trans (min_le_right _ _) (min_le_left g b)
    have hmb : m ≤ b := le_trans (min_le_right _ _) (min_le_right g b)
    have hM1 : M ≤ 1 := max_le hb1 (max_le hb2 hb3)
    have hm0 : 0 ≤ m := le_min ha1 (le_min ha2 ha3)
    have hmM : m ≤ M := le_trans hmr hrM
    have hlt : m < M := lt_of_le_of_ne hmM heq
    have hM0 : 0 < M := lt_of_le_of_lt hm0 hlt
    have hsum0 : 0 < M + m := by linarith
    have hsum2 : M + m < 2 := by
      have : m < 1 := lt_of_lt_of_le hlt hM1
      linarith
    have hrange0 : 0 < M - m := by linarith
    have hsne : (if (M + m) / 2 ≤ 1/2 then (M - m) / (M + m) else (M - m) / (2 - M - m)) ≠ 0 := by
      split
      · exact ne_of_gt (div_pos hrange0 hsum0)
      · exact ne_of_gt (div_pos hrange0 (by linarith))
    unfold hls_to_rgb
    rw [if_neg hsne]
    simp only
    have hm2 : ∀ se : ℚ,
        se = (if (M + m) / 2 ≤ 1/2 then (M - m) / (M + m) else (M - m) / (2 - M - m)) →
        (if (M + m) / 2 ≤ 1/2 then (M + m) / 2 * (1 + se)
          else (M + m) / 2 + se - (M + m) / 2 * se) = M := by
      intro se hse
      by_cases hl2 : (M + m) / 2 ≤ 1/2
      · rw [if_pos hl2] at hse ⊢
        subst hse
        field_simp
        ring
      · rw [if_neg hl2] at hse ⊢
        subst hse
        have h2smn : (2 : ℚ) - M - m ≠ 0 := by linarith
        field_simp
        ring
    rw [hm2 _ rfl]
    have hm1 : 2 * ((M + m) / 2) - M = m := by ring
    rw [hm1]
    by_cases hrm : r = M
    · rw [if_pos hrm]
      rw [div_sub_div_same, show M - b - (M - g) = g - b from by ring]
      by_cases hgb : b ≤ g
      · have hmeq : m = b := by
          rw [hmdef, min_eq_right hgb, min_eq_right (le_trans hgb (hrm ▸ hgM))]
        rw [hmeq, ← hrm]
        have hbr : b < r := by
          have := hlt
          rw [hmeq, ← hrm] at this
          exact this
        have hgr : g ≤ r := hrm ▸ hgM
        have hrbne : r - b ≠ 0 := by linarith
        have hq0 : 0 ≤ (g - b) / (r - b) / 6 :=
          div_nonneg (div_nonneg (by linarith) (by linarith)) (by norm_num)
        have hq16 : (g - b) / (r - b) / 6 ≤ 1/6 := by
          have h1 : (g - b) / (r - b) ≤ 1 := by
            rw [div_le_one (by linarith)]
            linarith
          linarith
        have hfq : fract1 ((g - b) / (r - b) / 6) = (g - b) / (r - b) / 6 :=
          fract1_eq_self hq0 (by linarith)
        rw [Prod.ext_iff, Prod.ext_iff]
        refine ⟨?_, ?_, ?_⟩ <;> simp only
        · rw [hfq, vv_eval (fract1_eq_self (by linarith) (by linarith))]
          rw [if_neg (by linarith)]
          by_cases hhalf : (g - b) / (r - b) / 6 + 1/3 < 1/2
          · rw [if_pos hhalf]
          · rw [if_neg hhalf, if_pos (by linarith)]
            have hq : (g - b) / (r - b) / 6 = 1/6 := by linarith
            rw [hq]
            ring
        · rw [hfq, vv_eval (fract1_eq_self hq0 (by linarith))]
          by_cases h6 : (g - b) / (r - b) / 6 < 1/6
          · rw [if_pos h6]
            field_simp
            ring
          · rw [if_neg h6, if_pos (by linarith)]
            have hq : (g - b) / (r - b) = 1 := by linarith
            rw [div_eq_one_iff_eq hrbne] at hq
            linarith
        · rw [hfq, vv_eval (fract1_eq_add_one (by linarith) (by linarith))]
          rw [if_neg (by linarith), if_neg (by linarith), if_neg (by linarith)]
      · have hbg : g < b := not_le.mp hgb
        have hmeq : m = g := by
          rw [hmdef, min_eq_left (le_of_lt hbg),
            min_eq_right (le_trans (le_of_lt hbg) (hrm ▸ hbM))]
        rw [hmeq, ← hrm]
        have hbr : b ≤ r := hrm ▸ hbM
        have hgr : g < r := by
          have := hlt
          rw [hmeq, ← hrm] at this
          exact this
        have hrgne : r - g ≠ 0 := by linarith
        have hqlo : -1 ≤ (g - b) / (r - g) := by
          rw [neg_le, ← neg_div]
          rw [div_le_one (by linarith)]
          linarith
        have hqhi : (g - b) / (r - g) < 0 :=
          div_neg_of_neg_of_pos (by linarith) (by linarith)
        have hfq : fract1 ((g - b) / (r - g) / 6) = (g - b) / (r - g) / 6 + 1 :=
          fract1_eq_add_one (by linarith) (by linarith)
        rw [Prod.ext_iff, Prod.ext_iff]
        refine ⟨?_, ?_, ?_⟩ <;> simp only
        · rw [hfq, vv_eval (fract1_eq_sub_one (by linarith) (by linarith))]
          rw [if_neg (by linarith), if_pos (by linarith)]
        · rw [hfq, vv_eval (fract1_eq_self (by linarith) (by linarith))]
          rw [if_neg (by linarith), if_neg (by linarith), if_neg (by linarith)]
        · rw [hfq, vv_eval (fract1_eq_self (by linarith) (by linarith))]
          rw [if_neg (by linarith), if_neg (by linarith), if_pos (by linarith)]
          field_simp
          ring
    · by_cases hgm : g = M
      · rw [if_neg hrm, if_pos hgm]
        rw [add_sub_assoc, div_sub_div_same, show M - r - (M - b) = b - r from by ring]
        by_cases hrb : r ≤ b
        · have hbg : b ≤ g := hgm.symm ▸ hbM
          have hmeq : m = r := by
            rw [hmdef, min_eq_right hbg, min_eq_left hrb]
          rw [hmeq, ← hgm]
          have hrg : r < g := by
            have := hlt
            rw [hmeq, ← hgm] at this
            exact this
          have hgrne : g - r ≠ 0 := by linarith
          have hq0 : 0 ≤ (b - r) / (g - r) := div_nonneg (by linarith) (by linarith)
          have hq1 : (b - r) / (g - r) ≤ 1 := by
            rw [div_le_one (by linarith)]
            linarith
          have hfq : fract1 ((2 + (b - r) / (g - r)) / 6) = (2 + (b - r) / (g - r)) / 6 :=
            fract1_eq_self (by linarith) (by linarith)
          rw [Prod.ext_iff, Prod.ext_iff]
          refine ⟨?_, ?_, ?_⟩ <;> simp only
          · rw [hfq, vv_eval (fract1_eq_self (by linarith) (by linarith))]
            rw [if_neg (by linarith), if_neg (by linarith), if_neg (by linarith)]
          · rw [hfq, vv_eval (fract1_eq_self (by linarith) (by linarith))]
            rw [if_neg (by linarith)]
            by_cases hhalf : (2 + (b - r) / (g - r)) / 6 < 1/2
            · rw [if_pos hhalf]
            · rw [if_neg hhalf, if_pos (by linarith)]
              have hq : (b - r) / (g - r) = 1 := by linarith
              rw [hq]
              ring
          · rw [hfq, vv_eval (fract1_eq_self (by linarith) (by linarith))]
            by_cases h6 : (2 + (b - r) / (g - r)) / 6 - 1/3 < 1/6
            · rw [if_pos h6]
              field_simp
              ring
            · rw [if_neg h6, if_pos (by linarith)]
              have hq : (b - r) / (g - r) = 1 := by linarith
              rw [div_eq_one_iff_eq hgrne] at hq
              linarith
        · have hbr : b < r := not_le.mp hrb
          have hbg : b ≤ g := hgm.symm ▸ hbM
          have hmeq : m = b := by
            rw [hmdef, min_eq_right hbg, min_eq_right (le_of_lt hbr)]
          rw [hmeq, ← hgm]
          have hrltg : r < g :=
            lt_of_le_of_ne (hgm.symm ▸ hrM) (fun hh => hrm (hh.trans hgm))
          have hgbpos : 0 < g - b := by
            have := hlt
            rw [hmeq, ← hgm] at this
            linarith
          have hqlo : -1 < (b - r) / (g - b) := by
            rw [neg_lt, ← neg_div, div_lt_one (by linarith)]
            linarith
          have hqhi : (b - r) / (g - b) < 0 :=
            div_neg_of_neg_of_pos (by linarith) (by linarith)
          have hfq : fract1 ((2 + (b - r) / (g - b)) / 6) = (2 + (b - r) / (g - b)) / 6 :=
            fract1_eq_self (by linarith) (by linarith)
          rw [Prod.ext_iff, Prod.ext_iff]
          refine ⟨?_, ?_, ?_⟩ <;> simp only
          · rw [hfq, vv_eval (fract1_eq_self (by linarith) (by linarith))]
            rw [if_neg (by linarith), if_neg (by linarith), if_pos (by linarith)]
            field_simp
            ring
          · rw [hfq, vv_eval (fract1_eq_self (by linarith) (by linarith))]
            rw [if_neg (by linarith), if_pos (by linarith)]
          · rw [hfq, vv_eval (fract1_eq_add_one (by linarith) (by linarith))]
            rw [if_neg (by linarith), if_neg (by linarith), if_neg (by linarith)]
      · have hbm : b = M := by
          rcases max_choice r (g ⊔ b) with hcase | hcase
          · exact absurd (hMdef.trans hcase).symm hrm
          · rcases max_choice g b with hcase2 | hcase2
            · exact absurd (hMdef.trans (hcase.trans hcase2)).symm hgm
            · exact (hMdef.trans (hcase.trans hcase2)).symm
        rw [if_neg hrm, if_neg hgm]
        rw [add_sub_assoc, div_sub_div_same, show M - g - (M - r) = r - g from by ring]
        by_cases hrg : r ≤ g
        · have hgltb : g < b := lt_of_le_of_ne (hbm ▸ hgM) (fun hh => hgm (hh.trans hbm))
          have hmeq : m = r := by
            rw [hmdef, min_eq_left (le_of_lt hgltb), min_eq_left hrg]
          rw [hmeq, ← hbm]
          have hrltb : r < b := by
            have := hlt
            rw [hmeq, ← hbm] at this
            exact this
          have hbrne : b - r ≠ 0 := by linarith
          have hqlo : -1 < (r - g) / (b - r) := by
            rw [neg_lt, ← neg_div, div_lt_one (by linarith)]
            linarith
          have hqhi : (r - g) / (b - r) ≤ 0 := by
            rw [div_nonpos_iff]
            right
            constructor <;> linarith
          have hfq : fract1 ((4 + (r - g) / (b - r)) / 6) = (4 + (r - g) / (b - r)) / 6 :=
            fract1_eq_self (by linarith) (by linarith)
          rw [Prod.ext_iff, Prod.ext_iff]
          refine ⟨?_, ?_, ?_⟩ <;> simp only
          · rw [hfq]
            by_cases harg : (4 + (r - g) / (b - r)) / 6 + 1/3 < 1
            · rw [vv_eval (fract1_eq_self (by linarith) harg)]
              rw [if_neg (by linarith), if_neg (by linarith), if_neg (by linarith)]
            · rw [vv_eval (fract1_eq_sub_one (by linarith) (by linarith))]
              rw [if_pos (by linarith)]
              have hq : (r - g) / (b - r) = 0 := by linarith
              rw [hq]
              ring
          · rw [hfq, vv_eval (fract1_eq_self (by linarith) (by linarith))]
            rw [if_neg (by linarith), if_neg (by linarith)]
            by_cases h23 : (4 + (r - g) / (b - r)) / 6 < 2/3
            · rw [if_pos h23]
              field_simp
              ring
            · rw [if_neg h23]
              have hq : (r - g) / (b - r) = 0 := by linarith
              rcases div_eq_zero_iff.mp hq with hnum | hden
              · linarith
              · exact absurd hden hbrne
          · rw [hfq, vv_eval (fract1_eq_self (by linarith) (by linarith))]
            rw [if_neg (by linarith), if_pos (by linarith)]
        · have hgr : g < r := not_le.mp hrg
          have hgb2 : g ≤ b := hbm.symm ▸ hgM
          have hmeq : m = g := by
            rw [hmdef, min_eq_left hgb2, min_eq_right (le_of_lt hgr)]
          rw [hmeq, ← hbm]
          have hrltb : r < b :=
            lt_of_le_of_ne (hbm ▸ hrM) (fun hh => hrm (hh.trans hbm))
          have hgb : g < b := by
            have := hlt
            rw [hmeq, ← hbm] at this
            exact this
          have hbgne : b - g ≠ 0 := by linarith
          have hq0 : 0 < (r - g) / (b - g) := div_pos (by linarith) (by linarith)
          have hq1 : (r - g) / (b - g) < 1 := by
            rw [div_lt_one (by linarith)]
            linarith
          have hfq : fract1 ((4 + (r - g) / (b - g)) / 6) = (4 + (r - g) / (b - g)) / 6 :=
            fract1_eq_self (by linarith) (by linarith)
          rw [Prod.ext_iff, Prod.ext_iff]
          refine ⟨?_, ?_, ?_⟩ <;> simp only
          · rw [hfq, vv_eval (fract1_eq_sub_one (by linarith) (by linarith))]
            rw [if_pos (by linarith)]
            field_simp
            ring
          · rw [hfq, vv_eval (fract1_eq_self (by linarith) (by linarith))]
            rw [if_neg (by linarith), if_neg (by linarith), if_neg (by linarith)]
          · rw [hfq, vv_eval (fract1_eq_self (by linarith) (by linarith))]
            rw [if_neg (by linarith), if_pos (by linarith)]



/-- `pytrunc` of an integer cast is the integer itself when nonnegative. -/
theorem pytrunc_intCast {n : ℤ} (h : 0 ≤ n) : pytrunc ((n : ℚ)) = n := by
  rw [pytrunc_of_nonneg (by exact_mod_cast h), Int.floor_intCast]

/-- The Color-level HSL round trip is exact over rationals. -/
theorem round_trip_exact (c : Color) (h : Valid c) :
    hsl_to_rgb (rgb_to_hsl c) = c := by
  obtain ⟨c1, c2, c3⟩ := c
  obtain ⟨h1, h2, h3, h4, h5, h6⟩ := h
  have ha1 : (0:ℚ) ≤ (c1:ℚ)/255 := div_nonneg (by exact_mod_cast h1) (by norm_num)
  have ha2 : (0:ℚ) ≤ (c2:ℚ)/255 := div_nonneg (by exact_mod_cast h3) (by norm_num)
  have ha3 : (0:ℚ) ≤ (c3:ℚ)/255 := div_nonneg (by exact_mod_cast h5) (by norm_num)
  have hb1 : (c1:ℚ)/255 ≤ 1 := by
    rw [div_le_one (by norm_num)]
    exact_mod_cast h2
  have hb2 : (c2:ℚ)/255 ≤ 1 := by
    rw [div_le_one (by norm_num)]
    exact_mod_cast h4
  have hb3 : (c3:ℚ)/255 ≤ 1 := by
    rw [div_le_one (by norm_num)]
    exact_mod_cast h6
  have key := hls_round_trip ha1 ha2 ha3 hb1 hb2 hb3
  have e1 : ∀ q : ℚ, q * 360 / 360 = q := fun q => mul_div_cancel_right₀ q (by norm_num)
  have e2 : ∀ q : ℚ, q * 100 / 100 = q := fun q => mul_div_cancel_right₀ q (by norm_num)
  have e3 : ∀ n : ℤ, (n:ℚ) / 255 * 255 = (n:ℚ) := fun n => div_mul_cancel₀ (n:ℚ) (by norm_num)
  unfold rgb_to_hsl hsl_to_rgb
  simp only [e1, e2, key, e3]
  simp only [Prod.mk.injEq]
  exact ⟨pytrunc_intCast h1, pytrunc_intCast h3, pytrunc_intCast h5⟩


/-- C8: the round trip Color → HSL → Color moves every channel by at most 1.
In this exact-rational model the round trip is in fact the identity on valid
colors, so the ±1 bound holds with room to spare. -/
theorem claim_C8_round_trip (c : Color) (h : Valid c) :
    |(hsl_to_rgb (rgb_to_hsl c)).1 - c.1| ≤ 1 ∧
      |(hsl_to_rgb (rgb_to_hsl c)).2.1 - c.2.1| ≤ 1 ∧
      |(hsl_to_rgb (rgb_to_hsl c)).2.2 - c.2.2| ≤ 1 := by
  rw [round_trip_exact c h]
  simp

theorem claim_C8_round_trip_witness :
    Valid (12, 34, 56) ∧
      (|(hsl_to_rgb (rgb_to_hsl (12, 34, 56))).1 - 12| ≤ 1 ∧
        |(hsl_to_rgb (rgb_to_hsl (12, 34, 56))).2.1 - 34| ≤ 1 ∧
        |(hsl_to_rgb (rgb_to_hsl (12, 34, 56))).2.2 - 56| ≤ 1) :=
  ⟨by decide, claim_C8_round_trip (12, 34, 56) (by decide)⟩

end ColorSim
